import Mathlib

/-!
# Ebiten rendering backend: vertex slab allocator, quad generator, GL context cache

A shallow embedding of

* `internal/graphicsutil/vertices.go` (`verticesBackend.sliceForOneQuad`, `QuadVertices`,
  `quadVerticesImpl`), and
* `internal/opengl/context_js.go` (`Context.BlendFunc` and the four `Delete*` operations),

followed by theorems about them.

Conventions of the embedding.

* Go `int` is the 64-bit two's complement integer: values are `Int`, and every arithmetic
  result is passed through `wrapInt`. (With a 32-bit `int` the same development goes through
  with 30 and 31 in place of 62 and 63.)
* A Go run either yields a value or ends abnormally (`Fault.panic`: a run-time panic;
  `Fault.outOfFuel`: a `for` loop was cut off after the given number of condition checks).
* `float32` is a type parameter `F` with the three operations the code uses (`FloatOps`);
  `f32` is the instance with IEEE round-to-nearest-even on the rationals, for the statements
  that need the order of the floats.
* Slices are windows into backing arrays that live in a heap, so that the aliasing between
  `theVerticesBackend.backend` and the slices handed out is kept.
-/

namespace graphicsutil

/-! ## Go run-time model -/

/-- Abnormal ends of a run. -/
inductive Fault where
  | panic
  | outOfFuel
deriving DecidableEq

/-- Outcome of running a piece of Go code. -/
abbrev Run (α : Type) := Except Fault α

/-- The value an exact integer result has as a Go `int` (64-bit two's complement). -/
def wrapInt (n : Int) : Int := (n + 2 ^ 63) % 2 ^ 64 - 2 ^ 63

/-- The `float32` operations used by `QuadVertices`: the constant `0.0` (also the zero value
that `make` fills a new array with), the conversion `float32(n)` of an `int`, and `a / b`. -/
structure FloatOps (F : Type) where
  zero : F
  ofInt : Int → F
  div : F → F → F

/-- The header of a non-nil Go slice: backing array `arr` (its allocation number in the heap),
start offset `off` inside that array, length and capacity. -/
structure Window where
  arr : Nat
  off : Nat
  len : Nat
  cap : Nat
deriving DecidableEq

/-- A Go slice value of type `[]float32`: `none` is `nil`. -/
abbrev Slice := Option Window

/-- The heap: the backing arrays allocated so far, in allocation order. -/
abbrev Heap (F : Type) := List (List F)

/-- Go `make([]float32, n)`: a fresh zero-filled array of `n` elements and the slice over it;
panics for negative `n`. -/
def make {F : Type} (zero : F) (n : Int) (heap : Heap F) : Run (Slice × Heap F) :=
  if n < 0 then .error .panic
  else .ok (some ⟨heap.length, 0, n.toNat, n.toNat⟩, heap ++ [List.replicate n.toNat zero])

/-- Go `len(s)`. -/
def len (s : Slice) : Int :=
  match s with
  | none => 0
  | some s => s.len

/-- Go slice expression `s[lo:hi]`: panics unless `0 ≤ lo ≤ hi ≤ cap(s)`, where `nil` has
capacity 0. -/
def sliceExpr (s : Slice) (lo hi : Int) : Run Slice :=
  match s with
  | none => if 0 ≤ lo ∧ lo ≤ hi ∧ hi ≤ 0 then .ok none else .error .panic
  | some s =>
    if 0 ≤ lo ∧ lo ≤ hi ∧ hi ≤ s.cap then
      .ok (some ⟨s.arr, s.off + lo.toNat, (hi - lo).toNat, s.cap - lo.toNat⟩)
    else .error .panic

/-- Go assignment `s[i] = x`: panics unless `i < len(s)`. -/
def setIndex {F : Type} (heap : Heap F) (s : Slice) (i : Nat) (x : F) : Run (Heap F) :=
  match s with
  | none => .error .panic
  | some s =>
    if i < s.len then .ok (heap.set s.arr ((heap.getD s.arr []).set (s.off + i) x))
    else .error .panic

/-- The floats a slice holds in a given heap. -/
def floats {F : Type} (heap : Heap F) (s : Slice) : List F :=
  match s with
  | none => []
  | some s => ((heap.getD s.arr []).drop s.off).take s.len

/-! ## `vertices.go` -/

/-- Modelled from the spec: `graphics.VertexSizeInBytes()` (package `graphics` is not among
the sources). A vertex is 6 floats (x, y, u0, v0, u1, v1) of 4 bytes each. -/
def VertexSizeInBytes : Int := 6 * 4

/-- Modelled from the spec: `opengl.Float.SizeInBytes()` (the data-type table of package
`opengl` is not among the sources). A 32-bit float takes 4 bytes. -/
def FloatSizeInBytes : Int := 4

/-- The struct `verticesBackend`. -/
structure verticesBackend where
  backend : Slice
  head : Int
deriving DecidableEq

/-- The initial value `&verticesBackend{}` of `theVerticesBackend`. -/
def verticesBackend.empty : verticesBackend := ⟨none, 0⟩

/-- The local `size` of `sliceForOneQuad`: floats per quad. (Both operands of the division
are positive, where Go's truncating division and `/` on `Int` agree.) -/
def quadSize : Int := wrapInt (wrapInt (4 * VertexSizeInBytes) / FloatSizeInBytes)

/-- The local constant `num` of `sliceForOneQuad`. -/
def num : Int := 256

/-- Method `(v *verticesBackend) sliceForOneQuad()`. Returns the slice, the heap (a fresh
backing array may have been allocated) and the updated receiver. -/
def sliceForOneQuad {F : Type} (zero : F) (heap : Heap F) (v : verticesBackend) :
    Run (Slice × Heap F × verticesBackend) := do
  let size := quadSize
  -- if v.backend == nil { v.backend = make([]float32, size*num) }
  let (heap, v) ←
    (match v.backend with
     | none => do
       let (b, heap) ← make zero (wrapInt (size * num)) heap
       pure (heap, ({ v with backend := b } : verticesBackend))
     | some _ => pure (heap, v) : Run (Heap F × verticesBackend))
  -- s := v.backend[v.head : v.head+size]
  let s ← sliceExpr v.backend v.head (wrapInt (v.head + size))
  -- v.head += size
  let v : verticesBackend := { v with head := wrapInt (v.head + size) }
  -- if v.head+size > len(v.backend) { v.backend = nil; v.head = 0 }
  if wrapInt (v.head + size) > len v.backend then
    pure (s, heap, ({ backend := none, head := 0 } : verticesBackend))
  else
    pure (s, heap, v)

/-- The interface `GeoM`: its one method `Apply(x, y float32) (x2, y2 float32)`. -/
abbrev GeoM (F : Type) := F → F → F × F

/-- The identity transform: `Apply(x, y) = (x, y)`. -/
def GeoM.identity {F : Type} : GeoM F := fun x y => (x, y)

/-- The package state: the heap and the package variable `theVerticesBackend`. -/
structure Mem (F : Type) where
  heap : Heap F
  theVerticesBackend : verticesBackend

/-- The package state at program start. -/
def Mem.init {F : Type} : Mem F := ⟨[], verticesBackend.empty⟩

/-- The loop `for w < bound { w *= 2 }`, cut off after `fuel` condition checks. -/
def doubleUntil : Nat → Int → Int → Run Int
  | 0, _, _ => .error .outOfFuel
  | fuel + 1, w, bound =>
    if w < bound then doubleUntil fuel (wrapInt (w * 2)) bound else .ok w

/-- The two padding loops of `QuadVertices` (lines 63 to 70): `w` and `h`, each doubled
from 1 until it is no longer below `width`, `height`. -/
def paddedSize (fuel : Nat) (width height : Int) : Run (Int × Int) := do
  let w ← doubleUntil fuel 1 width
  let h ← doubleUntil fuel 1 height
  pure (w, h)

/-- Function `quadVerticesImpl`. -/
def quadVerticesImpl {F : Type} (zero : F) (u0 v0 u1 v1 x0 y0 x1 y1 : F) (geom : GeoM F)
    (m : Mem F) : Run (Slice × Mem F) := do
  let (vs, heap, tvb) ← sliceForOneQuad zero m.heap m.theVerticesBackend
  let (x, y) := geom x0 y0
  let heap ← setIndex heap vs 0 x
  let heap ← setIndex heap vs 1 y
  let heap ← setIndex heap vs 2 u0
  let heap ← setIndex heap vs 3 v0
  let heap ← setIndex heap vs 4 u1
  let heap ← setIndex heap vs 5 v1
  let (x, y) := geom x1 y0
  let heap ← setIndex heap vs 6 x
  let heap ← setIndex heap vs 7 y
  let heap ← setIndex heap vs 8 u1
  let heap ← setIndex heap vs 9 v0
  let heap ← setIndex heap vs 10 u0
  let heap ← setIndex heap vs 11 v1
  let (x, y) := geom x0 y1
  let heap ← setIndex heap vs 12 x
  let heap ← setIndex heap vs 13 y
  let heap ← setIndex heap vs 14 u0
  let heap ← setIndex heap vs 15 v1
  let heap ← setIndex heap vs 16 u1
  let heap ← setIndex heap vs 17 v0
  let (x, y) := geom x1 y1
  let heap ← setIndex heap vs 18 x
  let heap ← setIndex heap vs 19 y
  let heap ← setIndex heap vs 20 u1
  let heap ← setIndex heap vs 21 v1
  let heap ← setIndex heap vs 22 u0
  let heap ← setIndex heap vs 23 v0
  pure (vs, ⟨heap, tvb⟩)

/-- Function `QuadVertices`. -/
def QuadVertices {F : Type} (ops : FloatOps F) (fuel : Nat)
    (width height sx0 sy0 sx1 sy1 : Int) (geom : GeoM F) (m : Mem F) :
    Run (Slice × Mem F) :=
  if sx0 ≥ sx1 ∨ sy0 ≥ sy1 then pure (none, m)
  else if sx1 ≤ 0 ∨ sy1 ≤ 0 then pure (none, m)
  else do
    let x0 := ops.zero
    let y0 := ops.zero
    let x1 := ops.ofInt (wrapInt (sx1 - sx0))
    let y1 := ops.ofInt (wrapInt (sy1 - sy0))
    let (w, h) ← paddedSize fuel width height
    let wf := ops.ofInt w
    let hf := ops.ofInt h
    let u0 := ops.div (ops.ofInt sx0) wf
    let v0 := ops.div (ops.ofInt sy0) hf
    let u1 := ops.div (ops.ofInt sx1) wf
    let v1 := ops.div (ops.ofInt sy1) hf
    quadVerticesImpl ops.zero u0 v0 u1 v1 x0 y0 x1 y1 geom m

/-! ## Specification-level notions for the allocator -/

/-- Values the doubling loop passes through once the bound exceeds `2 ^ 62`: the powers of
two up to `2 ^ 62`, then the wrapped `-2 ^ 63`, then `0` for ever. -/
def overflowOrbit (w : Int) : Prop := w = 0 ∨ w = -2 ^ 63 ∨ ∃ k : Nat, k ≤ 62 ∧ w = 2 ^ k

/-- `n` successive calls of `sliceForOneQuad`, collecting the slices returned. -/
def callsFrom {F : Type} (zero : F) :
    Nat → Heap F → verticesBackend → Run (List Slice × Heap F × verticesBackend)
  | 0, heap, v => pure ([], heap, v)
  | n + 1, heap, v => do
    let (s, heap, v) ← sliceForOneQuad zero heap v
    let (ss, heap, v) ← callsFrom zero n heap v
    pure (s :: ss, heap, v)

/-- The `i`-th quad window (counted from 0) of the backing array with allocation number `a`:
indices `[24 i, 24 (i + 1))`. -/
def quadWindow (a i : Nat) : Window := ⟨a, 24 * i, 24, 6144 - 24 * i⟩

/-- Two windows share an element: same backing array and intersecting index ranges. -/
def Window.overlaps (s t : Window) : Prop :=
  s.arr = t.arr ∧ s.off < t.off + t.len ∧ t.off < s.off + s.len

/-- States of the allocator reachable from the empty `verticesBackend` (over any heap) by
calls of `sliceForOneQuad`, interleaved with any assignments to slice elements (which is
all `quadVerticesImpl` does besides calling it). -/
inductive Reachable {F : Type} (zero : F) : Heap F → verticesBackend → Prop
  | init (heap : Heap F) : Reachable zero heap verticesBackend.empty
  | call {heap heap' : Heap F} {v v' : verticesBackend} {s : Slice} :
      Reachable zero heap v → sliceForOneQuad zero heap v = .ok (s, heap', v') →
      Reachable zero heap' v'
  | assign {heap heap' : Heap F} {v : verticesBackend} (s : Slice) (i : Nat) (x : F) :
      Reachable zero heap v → setIndex heap s i x = .ok heap' → Reachable zero heap' v

/-- Consistency of the allocator state: what every reachable state satisfies. -/
def backendOK {F : Type} (heap : Heap F) (v : verticesBackend) : Prop :=
  0 ≤ v.head ∧ v.head % 24 = 0 ∧
    match v.backend with
    | none => v.head = 0
    | some b => b.arr < heap.length ∧ b.off = 0 ∧ b.len = 6144 ∧ b.cap = 6144 ∧
        (heap.getD b.arr []).length = 6144 ∧ v.head + 24 ≤ 6144

end graphicsutil

namespace graphicsutil

/-! ## The `float32` model and helpers for stating results -/

/-- Rounding of a rational to the nearest integer, ties to the even one. -/
def roundHalfEven (q : ℚ) : ℤ :=
  if q - ⌊q⌋ < 1 / 2 then ⌊q⌋
  else if 1 / 2 < q - ⌊q⌋ then ⌊q⌋ + 1
  else if ⌊q⌋ % 2 = 0 then ⌊q⌋ else ⌊q⌋ + 1

/-- IEEE 754 binary32 rounding (to nearest, ties to even) of a rational whose magnitude is in
the normal range: the result has a 24-bit significand at the binary exponent of `q`. -/
def roundFloat32 (q : ℚ) : ℚ :=
  if q = 0 then 0
  else roundHalfEven (q / 2 ^ (Int.log 2 |q| - 23)) * 2 ^ (Int.log 2 |q| - 23)

/-- The `float32` operations on finite values in the normal range, the values taken as the
rationals they denote: conversion of an `int` and division are correctly rounded. In
`QuadVertices` every conversion is of a 64-bit `int` and every divisor is the padded size,
which is at least 1, so no infinity, NaN, subnormal or division by zero arises. -/
def f32 : FloatOps ℚ where
  zero := 0
  ofInt n := roundFloat32 n
  div a b := roundFloat32 (a / b)

/-- Sequential assignment of `vals` to the positions `off`, `off + 1`, ... of `a`. -/
def overwrite {F : Type} : List F → Nat → List F → List F
  | a, _, [] => a
  | a, off, x :: xs => overwrite (a.set off x) (off + 1) xs

/-- The 24 floats `quadVerticesImpl` writes, in slot order. -/
def quadFloats {F : Type} (u0 v0 u1 v1 x0 y0 x1 y1 : F) (geom : GeoM F) : List F :=
  [(geom x0 y0).1, (geom x0 y0).2, u0, v0, u1, v1,
   (geom x1 y0).1, (geom x1 y0).2, u1, v0, u0, v1,
   (geom x0 y1).1, (geom x0 y1).2, u0, v1, u1, v0,
   (geom x1 y1).1, (geom x1 y1).2, u1, v1, u0, v0]

end graphicsutil

namespace opengl

open graphicsutil (Fault Run)

/-! ## `context_js.go`

`js.Value` is a type parameter `V` with decidable equality (Go's `==`) and a value `null`
for `js.Null`; `CompositeMode` is a type parameter `M`. The WebGL object `c.gl` is outside
the program: its answers to the `is...` queries are given by a `Driver`, and every
`gl.Call(...)` a method makes is recorded, in order, in the list of `GLCall`s the method
returns next to the updated context. -/

/-- The `gl.Call(name, args...)` invocations made by the methods modelled here. -/
inductive GLCall (V : Type) where
  | blendFunc (s d : Int)
  | isTexture (t : V)
  | deleteTexture (t : V)
  | isFramebuffer (f : V)
  | deleteFramebuffer (f : V)
  | isShader (s : V)
  | deleteShader (s : V)
  | isProgram (p : V)
  | deleteProgram (p : V)
deriving DecidableEq

/-- A delete call of the driver. -/
def GLCall.isDelete {V : Type} : GLCall V → Bool
  | .deleteTexture _ => true
  | .deleteFramebuffer _ => true
  | .deleteShader _ => true
  | .deleteProgram _ => true
  | _ => false

/-- What the driver answers, at the time of the call, to `isTexture`, `isFramebuffer`,
`isShader` and `isProgram`: whether the handle is a live object of that kind. -/
structure Driver (V : Type) where
  isTexture : V → Bool
  isFramebuffer : V → Bool
  isShader : V → Bool
  isProgram : V → Bool

/-- Modelled from the spec: the struct `Context` (declared in `context.go`, which is not among
the sources) with the fields that `context_js.go` reads and writes, together with the field
`lastProgramID` of the embedded struct `context`; `L` is the type of the location cache.
The embedded fields `gl` and `loseContext` are handles to the driver, which is modelled by
`Driver` and the call list. -/
structure Context (V M L : Type) where
  locationCache : L
  screenFramebuffer : V
  lastFramebuffer : V
  lastTexture : V
  lastViewportWidth : Int
  lastViewportHeight : Int
  lastCompositeMode : M
  lastProgramID : Int
deriving DecidableEq

/-- How a call of a method that may panic ends: the context as the call leaves it (the
receiver is a pointer, so what was assigned before a panic stays assigned), the driver calls
made, in order, and the fault that ended the call, `none` for a normal return. -/
structure Outcome (V M L : Type) where
  context : Context V M L
  calls : List (GLCall V)
  fault : Option Fault
deriving DecidableEq

/-- Method `(c *Context) BlendFunc(mode CompositeMode)`. The function `operations` (not among
the sources) is a parameter. Modelled from the spec: it is a fixed table from modes to
(source, destination) factor pairs, and a mode that is not in the table (`none`) is an
error, here a panic since `BlendFunc` returns nothing. The panic comes after the assignment
to `c.lastCompositeMode` and before the driver call. -/
def BlendFunc {V M L : Type} [DecidableEq M] (operations : M → Option (Int × Int))
    (c : Context V M L) (mode : M) : Outcome V M L :=
  if c.lastCompositeMode = mode then ⟨c, [], none⟩
  else
    -- c.lastCompositeMode = mode
    let c := { c with lastCompositeMode := mode }
    -- s, d := operations(mode)
    match operations mode with
    | none => ⟨c, [], some .panic⟩
    -- gl.Call("blendFunc", int(s), int(d))
    | some (s, d) => ⟨c, [.blendFunc s d], none⟩

/-- Method `(c *Context) DeleteTexture(t Texture)`. -/
def DeleteTexture {V M L : Type} [DecidableEq V] (null : V) (gl : Driver V)
    (c : Context V M L) (t : V) : Context V M L × List (GLCall V) :=
  if !gl.isTexture t then (c, [.isTexture t])
  else
    let c := if c.lastTexture = t then { c with lastTexture := null } else c
    (c, [.isTexture t, .deleteTexture t])

/-- Method `(c *Context) DeleteFramebuffer(f Framebuffer)`. -/
def DeleteFramebuffer {V M L : Type} [DecidableEq V] (null : V) (gl : Driver V)
    (c : Context V M L) (f : V) : Context V M L × List (GLCall V) :=
  if !gl.isFramebuffer f then (c, [.isFramebuffer f])
  else
    let c :=
      if c.lastFramebuffer = f then
        { c with lastFramebuffer := null, lastViewportWidth := 0, lastViewportHeight := 0 }
      else c
    (c, [.isFramebuffer f, .deleteFramebuffer f])

/-- Method `(c *Context) DeleteShader(s Shader)`. -/
def DeleteShader {V M L : Type} (_gl : Driver V) (c : Context V M L) (s : V) :
    Context V M L × List (GLCall V) :=
  (c, [.deleteShader s])

/-- Method `(c *Context) DeleteProgram(p Program)`. -/
def DeleteProgram {V M L : Type} (gl : Driver V) (c : Context V M L) (p : V) :
    Context V M L × List (GLCall V) :=
  if !gl.isProgram p then (c, [.isProgram p])
  else (c, [.isProgram p, .deleteProgram p])

/-- A context as `Reset` leaves its cache fields, over natural-number handles (0 is
`js.Null`) and modes: used for concrete instances. -/
def Context.sample (tex fb : Nat) (w h : Int) (mode : Nat) : Context Nat Nat Unit :=
  { locationCache := (), screenFramebuffer := 0, lastFramebuffer := fb, lastTexture := tex,
    lastViewportWidth := w, lastViewportHeight := h, lastCompositeMode := mode,
    lastProgramID := 0 }

/-- Modelled from the spec: an `operations` table over natural-number modes with the one
entry the spec spells out, source-over (mode 0) = (one, one-minus-src-alpha), the factors
being the WebGL constants `ONE = 1` and `ONE_MINUS_SRC_ALPHA = 771`; no other mode is in
this table. -/
def operationsSourceOver (mode : Nat) : Option (Int × Int) :=
  if mode = 0 then some (1, 771) else none

/-- A driver for which exactly the handles in the given lists are live. -/
def Driver.ofLists (textures framebuffers shaders programs : List Nat) : Driver Nat :=
  { isTexture := fun t => decide (t ∈ textures),
    isFramebuffer := fun f => decide (f ∈ framebuffers),
    isShader := fun s => decide (s ∈ shaders),
    isProgram := fun p => decide (p ∈ programs) }

end opengl

namespace graphicsutil

theorem wrapInt_eq (n : Int) (h1 : -2 ^ 63 ≤ n) (h2 : n < 2 ^ 63) : wrapInt n = n := by
  unfold wrapInt
  rw [Int.emod_eq_of_lt (by omega) (by omega)]
  omega

theorem two_pow_le_of_le {i j : Nat} (h : i ≤ j) : (2 : Int) ^ i ≤ 2 ^ j :=
  pow_le_pow_right₀ (by norm_num) h

theorem doubleUntil_spec (bound : Int) (hb : bound ≤ 2 ^ 62) :
    ∀ (fuel k : Nat), k ≤ 62 → 63 ≤ fuel + k → (k = 0 ∨ (2 : Int) ^ (k - 1) < bound) →
      ∃ j : Nat, k ≤ j ∧ j ≤ 62 ∧ doubleUntil fuel (2 ^ k) bound = .ok (2 ^ j) ∧
        bound ≤ 2 ^ j ∧ (j = k ∨ (2 : Int) ^ (j - 1) < bound) := by
  intro fuel
  induction fuel with
  | zero => intro k hk hf; omega
  | succ fuel ih =>
    intro k hk hf hinv
    unfold doubleUntil
    by_cases hlt : (2 : Int) ^ k < bound
    · have hk61 : k < 62 := by
        by_contra hcon
        have : k = 62 := by omega
        subst this
        omega
      have hpow : (2 : Int) ^ (k + 1) ≤ 2 ^ 62 := two_pow_le_of_le (by omega)
      have hpos : (0 : Int) < 2 ^ k := by positivity
      have hw : wrapInt (2 ^ k * 2) = 2 ^ (k + 1) := by
        rw [wrapInt_eq _ (by omega) (by rw [pow_succ] at hpow; omega), pow_succ]
      obtain ⟨j, hj1, hj2, hrun, hle, hmin⟩ := ih (k + 1) (by omega) (by omega)
        (Or.inr (by simpa using hlt))
      refine ⟨j, by omega, hj2, ?_, hle, Or.inr ?_⟩
      · simp only [hlt, if_true, hw, hrun]
      · rcases hmin with h | h
        · subst h; simpa using hlt
        · exact h
    · refine ⟨k, le_refl _, hk, ?_, by omega, Or.inl rfl⟩
      simp only [hlt, if_false]

theorem overflowOrbit_step (w : Int) (h : overflowOrbit w) :
    w < 2 ^ 62 + 1 ∧ overflowOrbit (wrapInt (w * 2)) := by
  rcases h with h | h | ⟨k, hk, h⟩
  · subst h
    exact ⟨by norm_num, Or.inl (by norm_num [wrapInt])⟩
  · subst h
    exact ⟨by norm_num, Or.inl (by norm_num [wrapInt])⟩
  · subst h
    have hle : (2 : Int) ^ k ≤ 2 ^ 62 := two_pow_le_of_le hk
    refine ⟨by omega, ?_⟩
    by_cases hk62 : k = 62
    · subst hk62
      exact Or.inr (Or.inl (by norm_num [wrapInt]))
    · have hpow : (2 : Int) ^ (k + 1) ≤ 2 ^ 62 := two_pow_le_of_le (by omega)
      have hpos : (0 : Int) < 2 ^ k := by positivity
      refine Or.inr (Or.inr ⟨k + 1, by omega, ?_⟩)
      rw [wrapInt_eq _ (by omega) (by rw [pow_succ] at hpow; omega), pow_succ]

theorem doubleUntil_overflow (fuel : Nat) :
    ∀ w : Int, overflowOrbit w → doubleUntil fuel w (2 ^ 62 + 1) = .error .outOfFuel := by
  induction fuel with
  | zero => intro w _; rfl
  | succ fuel ih =>
    intro w hw
    obtain ⟨hlt, hnext⟩ := overflowOrbit_step w hw
    unfold doubleUntil
    simp only [hlt, if_true]
    exact ih _ hnext

theorem paddedSize_ok (fuel : Nat) (width height : Int) (hfuel : 63 ≤ fuel)
    (hw : width ≤ 2 ^ 62) (hh : height ≤ 2 ^ 62) :
    ∃ i j : Nat, paddedSize fuel width height = .ok (2 ^ i, 2 ^ j) ∧ i ≤ 62 ∧ j ≤ 62 ∧
      width ≤ 2 ^ i ∧ height ≤ 2 ^ j ∧
      (i = 0 ∨ (2 : Int) ^ (i - 1) < width) ∧ (j = 0 ∨ (2 : Int) ^ (j - 1) < height) := by
  obtain ⟨i, _, hi, hrw, hwle, hwmin⟩ :=
    doubleUntil_spec width hw fuel 0 (by omega) (by omega) (Or.inl rfl)
  obtain ⟨j, _, hj, hrh, hhle, hhmin⟩ :=
    doubleUntil_spec height hh fuel 0 (by omega) (by omega) (Or.inl rfl)
  refine ⟨i, j, ?_, hi, hj, hwle, hhle, hwmin, hhmin⟩
  simp only [pow_zero] at hrw hrh
  simp [paddedSize, hrw, hrh, bind, Except.bind, pure, Except.pure]

theorem half_pow_lt (i : Nat) (x : Int) (hx : 1 ≤ x) (h : i = 0 ∨ (2 : Int) ^ (i - 1) < x) :
    (2 : Int) ^ i / 2 < x := by
  rcases h with h | h
  · subst h; norm_num; omega
  · cases i with
    | zero => norm_num; omega
    | succ i =>
      rw [pow_succ, Int.mul_ediv_cancel _ (by norm_num)]
      simpa using h

/-- C1 (as amended): for `1 ≤ width, height ≤ 2 ^ 62` the two padding loops of `QuadVertices`
finish (63 condition checks each are enough) with `w ≥ width`, `h ≥ height`, both powers of
two, and `w / 2 < width`, `h / 2 < height`. -/
theorem paddedSize_smallest_pow2 (fuel : Nat) (width height : Int) (hfuel : 63 ≤ fuel)
    (hw1 : 1 ≤ width) (hw : width ≤ 2 ^ 62) (hh1 : 1 ≤ height) (hh : height ≤ 2 ^ 62) :
    ∃ w h : Int, paddedSize fuel width height = .ok (w, h) ∧
      width ≤ w ∧ height ≤ h ∧ (∃ i : Nat, w = 2 ^ i) ∧ (∃ j : Nat, h = 2 ^ j) ∧
      w / 2 < width ∧ h / 2 < height := by
  obtain ⟨i, j, hrun, _, _, hwle, hhle, hwmin, hhmin⟩ :=
    paddedSize_ok fuel width height hfuel hw hh
  exact ⟨2 ^ i, 2 ^ j, hrun, hwle, hhle, ⟨i, rfl⟩, ⟨j, rfl⟩,
    half_pow_lt i width hw1 hwmin, half_pow_lt j height hh1 hhmin⟩

theorem paddedSize_smallest_pow2_witness :
    ∃ w h : Int, paddedSize 63 100 50 = .ok (w, h) ∧
      100 ≤ w ∧ 50 ≤ h ∧ (∃ i : Nat, w = 2 ^ i) ∧ (∃ j : Nat, h = 2 ^ j) ∧
      w / 2 < 100 ∧ h / 2 < 50 :=
  paddedSize_smallest_pow2 63 100 50 (by decide) (by decide) (by decide) (by decide) (by decide)

/-- C1 (as stated) fails: for `width = 2 ^ 62 + 1` the doubling of `w` wraps around to
`-2 ^ 63` and then to `0`, where it stays below `width` for ever; no padded size is computed,
however many iterations are allowed. -/
theorem paddedSize_diverges_above_2_pow_62 :
    ¬ ∃ (fuel : Nat) (wh : Int × Int), paddedSize fuel (2 ^ 62 + 1) 1 = .ok wh := by
  rintro ⟨fuel, wh, h⟩
  have hdiv := doubleUntil_overflow fuel 1 (Or.inr (Or.inr ⟨0, by omega, by norm_num⟩))
  simp only [paddedSize, bind, Except.bind, hdiv] at h
  cases h

end graphicsutil

namespace graphicsutil

/-! ## The slab allocator, step by step -/

theorem quadSize_eq : quadSize = 24 := by
  norm_num [quadSize, wrapInt, VertexSizeInBytes, FloatSizeInBytes]

theorem slabLen_eq : wrapInt (24 * num) = 6144 := by
  norm_num [num, wrapInt]

theorem make_slab {F : Type} (zero : F) (heap : Heap F) (n : Nat) (hn : n = 6144) :
    make zero 6144 heap = .ok (some ⟨heap.length, 0, n, n⟩, heap ++ [List.replicate n zero]) := by
  have h5 : Int.toNat 6144 = n := by omega
  have h6 : ¬ ((6144 : Int) < 0) := by omega
  unfold make
  rw [if_neg h6, h5]

/-- A call on a backend that is present and has room for the window at `head`. -/
theorem sliceForOneQuad_some {F : Type} (zero : F) (heap : Heap F) (b : Window) (hd : Int)
    (h0 : 0 ≤ hd) (hroom : hd + 24 ≤ b.cap) (hcap : (b.cap : Int) < 2 ^ 62) :
    sliceForOneQuad zero heap ⟨some b, hd⟩ =
      .ok (some ⟨b.arr, b.off + hd.toNat, 24, b.cap - hd.toNat⟩, heap,
        if hd + 48 > b.len then ⟨none, 0⟩ else ⟨some b, hd + 24⟩) := by
  have h1 : wrapInt (hd + 24) = hd + 24 := wrapInt_eq _ (by omega) (by omega)
  have h2 : wrapInt (hd + 24 + 24) = hd + 48 := by
    rw [wrapInt_eq _ (by omega) (by omega)]; ring
  have h3 : 0 ≤ hd ∧ hd ≤ hd + 24 ∧ hd + 24 ≤ (b.cap : Int) := ⟨h0, by omega, hroom⟩
  have h4 : (hd + 24 - hd).toNat = 24 := by
    have : hd + 24 - hd = 24 := by ring
    rw [this]; rfl
  simp only [sliceForOneQuad, quadSize_eq, sliceExpr, len, bind, Except.bind, pure,
    Except.pure, h1, h2, h3, and_self, if_true, h4]
  split <;> rfl

/-- A call on the empty backend allocates a slab of `256 * 24` floats. -/
theorem sliceForOneQuad_none {F : Type} (zero : F) (heap : Heap F) (n : Nat) (hn : n = 6144) :
    sliceForOneQuad zero heap ⟨none, 0⟩ =
      .ok (some ⟨heap.length, 0, 24, n⟩, heap ++ [List.replicate n zero],
        ⟨some ⟨heap.length, 0, n, n⟩, 24⟩) := by
  have h1 : wrapInt (0 + 24) = 24 := by norm_num [wrapInt]
  have h2 : wrapInt (24 + 24) = 48 := by norm_num [wrapInt]
  have h3 : (0 : Int) ≤ 0 ∧ (0 : Int) ≤ 24 ∧ (24 : Int) ≤ (n : Int) := by omega
  have h4 : ¬ ((48 : Int) > (n : Int)) := by omega
  have h7 : ((24 : Int) - 0).toNat = 24 := rfl
  have h8 : Int.toNat 0 = 0 := rfl
  simp only [sliceForOneQuad, quadSize_eq, slabLen_eq, make_slab zero heap n hn]
  simp only [bind, Except.bind, pure, Except.pure]
  rw [h1, h2]
  simp only [sliceExpr, len, h3, and_self, if_true, h4, if_false, h7, h8, Nat.add_zero,
    Nat.sub_zero]

end graphicsutil

namespace graphicsutil

/-! ## Sequences of allocator calls -/

theorem callsFrom_add {F : Type} (zero : F) (m n : Nat) :
    ∀ (heap : Heap F) (v : verticesBackend),
      callsFrom zero (m + n) heap v =
        (callsFrom zero m heap v).bind fun r =>
          (callsFrom zero n r.2.1 r.2.2).bind fun r' =>
            .ok (r.1 ++ r'.1, r'.2.1, r'.2.2) := by
  induction m with
  | zero =>
    intro heap v
    simp only [Nat.zero_add, callsFrom, pure, Except.pure, Except.bind, List.nil_append]
    cases callsFrom zero n heap v <;> rfl
  | succ m ih =>
    intro heap v
    rw [Nat.add_right_comm]
    simp only [callsFrom, bind, pure, Except.pure]
    cases h : sliceForOneQuad zero heap v with
    | error e => rfl
    | ok r =>
      simp only [Except.bind]
      rw [ih]
      cases callsFrom zero m r.2.1 r.2.2 with
      | error e => rfl
      | ok r1 =>
        simp only [Except.bind]
        cases callsFrom zero n r1.2.1 r1.2.2 with
        | error e => rfl
        | ok r2 => rfl

/-- The slab of the array with allocation number `a`, as `make` returns it. -/
theorem sliceForOneQuad_window {F : Type} (zero : F) (heap : Heap F) (a i : Nat) (hi : i < 256) :
    sliceForOneQuad zero heap ⟨some ⟨a, 0, 6144, 6144⟩, ((24 * i : Nat) : Int)⟩ =
      .ok (some (quadWindow a i), heap,
        if i = 255 then ⟨none, 0⟩
        else ⟨some ⟨a, 0, 6144, 6144⟩, ((24 * (i + 1) : Nat) : Int)⟩) := by
  rw [sliceForOneQuad_some zero heap _ _ (by omega)
    (by show ((24 * i : Nat) : Int) + 24 ≤ ((6144 : Nat) : Int); omega)
    (by show ((6144 : Nat) : Int) < 2 ^ 62; omega)]
  have e1 : (((24 * i : Nat) : Int)).toNat = 24 * i := by omega
  have e2 : ((24 * i : Nat) : Int) + 24 = ((24 * (i + 1) : Nat) : Int) := by omega
  simp only [e1, e2, quadWindow, Nat.zero_add]
  by_cases h : i = 255
  · subst h
    rw [if_pos (by omega), if_pos rfl]
  · rw [if_neg (by omega), if_neg h]

theorem callsFrom_inside {F : Type} (zero : F) (heap : Heap F) (a n : Nat) :
    ∀ i : Nat, i + n ≤ 255 →
      callsFrom zero n heap ⟨some ⟨a, 0, 6144, 6144⟩, ((24 * i : Nat) : Int)⟩ =
        .ok ((List.range' i n).map (fun i => some (quadWindow a i)), heap,
          ⟨some ⟨a, 0, 6144, 6144⟩, ((24 * (i + n) : Nat) : Int)⟩) := by
  induction n with
  | zero =>
    intro i _
    simp only [callsFrom, pure, Except.pure, List.range'_zero, List.map_nil, Nat.add_zero]
  | succ n ih =>
    intro i hi
    have hstep := sliceForOneQuad_window zero heap a i (by omega)
    rw [if_neg (by omega)] at hstep
    have hih := ih (i + 1) (by omega)
    rw [callsFrom, hstep]
    simp only [bind, Except.bind]
    rw [hih]
    simp only [pure, Except.pure, List.range'_succ, List.map_cons]
    rw [Nat.add_assoc, Nat.add_comm 1 n]

theorem callsFrom_empty {F : Type} (zero : F) (heap : Heap F) (k : Nat) (hk1 : 1 ≤ k)
    (hk : k ≤ 255) :
    callsFrom zero k heap verticesBackend.empty =
      .ok ((List.range k).map (fun i => some (quadWindow heap.length i)),
        heap ++ [List.replicate 6144 zero],
        ⟨some ⟨heap.length, 0, 6144, 6144⟩, ((24 * k : Nat) : Int)⟩) := by
  obtain ⟨n, rfl⟩ : ∃ n, k = n + 1 := ⟨k - 1, by omega⟩
  have hrest := callsFrom_inside zero (heap ++ [List.replicate 6144 zero]) heap.length n 1
    (by omega)
  have hfirst := sliceForOneQuad_none zero heap 6144 rfl
  have e24 : (24 : Int) = ((24 * 1 : Nat) : Int) := by omega
  rw [e24] at hfirst
  rw [callsFrom, verticesBackend.empty, hfirst]
  simp only [bind, Except.bind]
  rw [hrest]
  simp only [pure, Except.pure, List.range_eq_range', List.range'_succ, List.map_cons,
    Nat.zero_add]
  rw [Nat.add_comm 1 n]
  rfl

theorem callsFrom_one {F : Type} (zero : F) (heap : Heap F) (v : verticesBackend) :
    callsFrom zero 1 heap v =
      (sliceForOneQuad zero heap v).bind fun r => .ok ([r.1], r.2.1, r.2.2) := by
  simp only [callsFrom, bind, pure, Except.pure]
  cases sliceForOneQuad zero heap v <;> rfl

theorem callsFrom_256 {F : Type} (zero : F) (heap : Heap F) :
    callsFrom zero 256 heap verticesBackend.empty =
      .ok ((List.range 256).map (fun i => some (quadWindow heap.length i)),
        heap ++ [List.replicate 6144 zero], ⟨none, 0⟩) := by
  have h255 := callsFrom_empty zero heap 255 (by omega) (by omega)
  have hlast := sliceForOneQuad_window zero (heap ++ [List.replicate 6144 zero]) heap.length 255
    (by omega)
  rw [if_pos rfl] at hlast
  have hr : List.range 256 = List.range 255 ++ [255] := List.range_succ 255
  rw [show (256 : Nat) = 255 + 1 from rfl, callsFrom_add, h255, Except.bind, callsFrom_one,
    hlast, Except.bind, Except.bind, hr, List.map_append, List.map_cons, List.map_nil]

theorem callsFrom_257 {F : Type} (zero : F) (heap : Heap F) :
    callsFrom zero 257 heap verticesBackend.empty =
      .ok ((List.range 256).map (fun i => some (quadWindow heap.length i)) ++
          [some ⟨heap.length + 1, 0, 24, 6144⟩],
        heap ++ [List.replicate 6144 zero] ++ [List.replicate 6144 zero],
        ⟨some ⟨heap.length + 1, 0, 6144, 6144⟩, 24⟩) := by
  have hfresh := sliceForOneQuad_none zero (heap ++ [List.replicate 6144 zero]) 6144 rfl
  rw [List.length_append, List.length_singleton] at hfresh
  rw [show (257 : Nat) = 256 + 1 from rfl, callsFrom_add, callsFrom_256, Except.bind,
    callsFrom_one, hfresh, Except.bind, Except.bind]

theorem quadWindow_disjoint (a i j : Nat) (hij : i < j) :
    ¬ (quadWindow a i).overlaps (quadWindow a j) := by
  simp only [Window.overlaps, quadWindow]
  omega

/-- C5: starting from an empty `verticesBackend` (over any heap; `a` is the allocation number
the next new array gets), the first `k ≤ 256` calls of `sliceForOneQuad` return the windows
`[24 (i - 1), 24 i)`, `i = 1..k`, of one backing array, the one with number `a` and of
`256 * 24 = 6144` floats; these windows are pairwise disjoint; the backend is still that
array with `head = 24 k` after `k < 256` calls, and is absent with `head = 0` after the
256th; the 257th call allocates a fresh array of 6144 floats (number `a + 1`) and returns
its window `[0, 24)`. -/
theorem sliceForOneQuad_windows {F : Type} (zero : F) (heap : Heap F) (k : Nat) (hk1 : 1 ≤ k)
    (hk : k ≤ 256) :
    callsFrom zero k heap verticesBackend.empty =
        .ok ((List.range k).map (fun i => some (quadWindow heap.length i)),
          heap ++ [List.replicate 6144 zero],
          if k = 256 then ⟨none, 0⟩
          else ⟨some ⟨heap.length, 0, 6144, 6144⟩, ((24 * k : Nat) : Int)⟩) ∧
      ((List.range k).map (fun i => some (quadWindow heap.length i)))[k - 1]? =
        some (some ⟨heap.length, 24 * (k - 1), 24, 6144 - 24 * (k - 1)⟩) ∧
      (∀ i j : Nat, i < j → j < 256 →
        ¬ (quadWindow heap.length i).overlaps (quadWindow heap.length j)) ∧
      callsFrom zero 257 heap verticesBackend.empty =
        .ok ((List.range 256).map (fun i => some (quadWindow heap.length i)) ++
            [some ⟨heap.length + 1, 0, 24, 6144⟩],
          heap ++ [List.replicate 6144 zero] ++ [List.replicate 6144 zero],
          ⟨some ⟨heap.length + 1, 0, 6144, 6144⟩, 24⟩) := by
  refine ⟨?_, ?_, fun i j hij _ => quadWindow_disjoint _ i j hij, ?_⟩
  · by_cases h : k = 256
    · subst h
      rw [if_pos rfl]
      exact callsFrom_256 zero heap
    · rw [if_neg h]
      exact callsFrom_empty zero heap k hk1 (by omega)
  · rw [List.getElem?_map, List.getElem?_range (by omega)]
    rfl
  · exact callsFrom_257 zero heap

theorem sliceForOneQuad_windows_witness :
    callsFrom (0 : Int) 256 [] verticesBackend.empty =
        .ok ((List.range 256).map (fun i => some (quadWindow ([] : Heap Int).length i)),
          [] ++ [List.replicate 6144 0],
          if 256 = 256 then ⟨none, 0⟩
          else ⟨some ⟨([] : Heap Int).length, 0, 6144, 6144⟩, ((24 * 256 : Nat) : Int)⟩) ∧
      ((List.range 256).map (fun i => some (quadWindow ([] : Heap Int).length i)))[256 - 1]? =
        some (some ⟨([] : Heap Int).length, 24 * (256 - 1), 24, 6144 - 24 * (256 - 1)⟩) ∧
      (∀ i j : Nat, i < j → j < 256 →
        ¬ (quadWindow ([] : Heap Int).length i).overlaps
          (quadWindow ([] : Heap Int).length j)) ∧
      callsFrom (0 : Int) 257 [] verticesBackend.empty =
        .ok ((List.range 256).map (fun i => some (quadWindow ([] : Heap Int).length i)) ++
            [some ⟨([] : Heap Int).length + 1, 0, 24, 6144⟩],
          [] ++ [List.replicate 6144 0] ++ [List.replicate 6144 0],
          ⟨some ⟨([] : Heap Int).length + 1, 0, 6144, 6144⟩, 24⟩) :=
  sliceForOneQuad_windows (0 : Int) [] 256 (by decide) (by decide)

end graphicsutil

namespace graphicsutil

/-! ## The allocator invariant -/

theorem setIndex_some {F : Type} (heap : Heap F) (s : Window) (i : Nat) (x : F) :
    setIndex heap (some s) i x =
      if i < s.len then .ok (heap.set s.arr ((heap.getD s.arr []).set (s.off + i) x))
      else .error .panic := rfl

theorem setIndex_shape {F : Type} (heap heap' : Heap F) (s : Slice) (i : Nat) (x : F)
    (h : setIndex heap s i x = .ok heap') :
    heap'.length = heap.length ∧
      ∀ a : Nat, (heap'.getD a []).length = (heap.getD a []).length := by
  cases s with
  | none => cases h
  | some s =>
  rw [setIndex_some] at h
  split at h
  · injection h with h
    subst h
    refine ⟨List.length_set .., fun a => ?_⟩
    by_cases ha : s.arr = a
    · subst ha
      by_cases hlt : s.arr < heap.length
      · simp [List.getD_eq_getElem?_getD, List.getElem?_set, hlt]
      · rw [List.set_eq_of_length_le (by omega)]
    · simp [List.getD_eq_getElem?_getD, List.getElem?_set, ha]
  · cases h

theorem getD_append_self {α : Type} (l : List α) (x d : α) :
    (l ++ [x]).getD l.length d = x := by
  rw [List.getD_eq_getElem?_getD, List.getElem?_append_right (le_refl _), Nat.sub_self]
  rfl

theorem backendOK_empty {F : Type} (heap : Heap F) : backendOK heap verticesBackend.empty := by
  simp [backendOK, verticesBackend.empty]

theorem backendOK_assign {F : Type} (heap heap' : Heap F) (v : verticesBackend) (s : Slice)
    (i : Nat) (x : F) (hok : backendOK heap v) (h : setIndex heap s i x = .ok heap') :
    backendOK heap' v := by
  obtain ⟨hlen, hget⟩ := setIndex_shape heap heap' s i x h
  obtain ⟨h0, hmod, hrest⟩ := hok
  refine ⟨h0, hmod, ?_⟩
  cases hb : v.backend with
  | none => rw [hb] at hrest; exact hrest
  | some b =>
    rw [hb] at hrest
    simpa only [hlen, hget] using hrest

/-- What a call does in a consistent state. -/
theorem sliceForOneQuad_ok {F : Type} (zero : F) (heap : Heap F) (v : verticesBackend)
    (hok : backendOK heap v) :
    ∃ (s : Window) (heap' : Heap F) (v' : verticesBackend),
      sliceForOneQuad zero heap v = .ok (some s, heap', v') ∧ backendOK heap' v' ∧
        s.len = 24 ∧ s.arr < heap'.length ∧ s.off + 24 ≤ (heap'.getD s.arr []).length := by
  obtain ⟨bk, hd⟩ := v
  obtain ⟨h0, hmod, hrest⟩ := hok
  cases bk with
  | none =>
    simp only at hrest h0 hmod
    subst hrest
    have hnew : ((heap ++ [List.replicate 6144 zero]).getD heap.length []).length = 6144 := by
      rw [getD_append_self, List.length_replicate]
    have hlt : heap.length < (heap ++ [List.replicate 6144 zero]).length := by
      rw [List.length_append, List.length_singleton]; omega
    refine ⟨_, _, _, sliceForOneQuad_none zero heap 6144 rfl, ?_, rfl, hlt, ?_⟩
    · exact ⟨by norm_num, by norm_num, hlt, rfl, rfl, rfl, hnew, by norm_num⟩
    · show 0 + 24 ≤ ((heap ++ [List.replicate 6144 zero]).getD heap.length []).length
      rw [hnew]
      decide
  | some b =>
    simp only at hrest h0 hmod
    obtain ⟨harr, hoff, hlen, hcap, hal, hroom⟩ := hrest
    refine ⟨_, _, _, sliceForOneQuad_some zero heap b hd h0 (by omega) (by omega), ?_, rfl,
      harr, ?_⟩
    · by_cases hfull : hd + 48 > (b.len : Int)
      · rw [if_pos hfull]
        exact backendOK_empty heap
      · rw [if_neg hfull]
        exact ⟨by simp only; omega, by simp only; omega, harr, hoff, hlen, hcap, hal,
          by simp only; omega⟩
    · simp only [hoff, hal]
      omega

theorem Reachable.consistent {F : Type} {zero : F} {heap : Heap F} {v : verticesBackend}
    (h : Reachable zero heap v) : graphicsutil.backendOK heap v := by
  induction h with
  | init heap => exact backendOK_empty heap
  | call _ hstep ih =>
    obtain ⟨s, heap', v', hrun, hok', _⟩ := sliceForOneQuad_ok zero _ _ ih
    rw [hrun] at hstep
    injection hstep with hstep
    injection hstep with _ hstep
    injection hstep with h1 h2
    subst h1 h2
    exact hok'
  | assign s i x _ hset ih => exact backendOK_assign _ _ _ s i x ih hset

/-- C10: in every state reachable from the empty `verticesBackend` by calls of
`sliceForOneQuad` (and assignments to slice elements in between), `head` is a non-negative
multiple of 24; an absent backend has `head = 0`; a present backend has length
`256 * 24` and `head + 24` does not exceed it, so the slice expression
`backend[head : head+24]` does not panic and the next call returns normally. -/
theorem sliceForOneQuad_invariant {F : Type} (zero : F) (heap : Heap F) (v : verticesBackend)
    (h : Reachable zero heap v) :
    0 ≤ v.head ∧ (∃ q : Int, v.head = 24 * q) ∧
      (v.backend = none → v.head = 0) ∧
      (∀ b : Window, v.backend = some b →
        len (some b) = 256 * 24 ∧ v.head + 24 ≤ len (some b) ∧
          ∃ s : Window, sliceExpr (some b) v.head (v.head + 24) = .ok (some s)) ∧
      ∃ r : Slice × Heap F × verticesBackend, sliceForOneQuad zero heap v = .ok r := by
  have hok := h.consistent
  obtain ⟨s, heap', v', hrun, _⟩ := sliceForOneQuad_ok zero heap v hok
  obtain ⟨h0, hmod, hrest⟩ := hok
  refine ⟨h0, ⟨v.head / 24, by omega⟩, ?_, ?_, ⟨_, hrun⟩⟩
  · intro hb
    rw [hb] at hrest
    exact hrest
  · intro b hb
    rw [hb] at hrest
    obtain ⟨_, _, hlen, hcap, _, hroom⟩ := hrest
    refine ⟨by simp only [len, hlen]; norm_num, by simp only [len, hlen]; omega, ?_⟩
    have hc : 0 ≤ v.head ∧ v.head ≤ v.head + 24 ∧ v.head + 24 ≤ (b.cap : Int) :=
      ⟨h0, by omega, by omega⟩
    exact ⟨⟨b.arr, b.off + v.head.toNat, (v.head + 24 - v.head).toNat, b.cap - v.head.toNat⟩,
      by simp only [sliceExpr, hc, and_self, if_true]⟩

theorem sliceForOneQuad_invariant_witness :
    0 ≤ (verticesBackend.mk (some ⟨0, 0, 6144, 6144⟩) 24).head ∧
      (∃ q : Int, (verticesBackend.mk (some ⟨0, 0, 6144, 6144⟩) 24).head = 24 * q) ∧
      ((verticesBackend.mk (some ⟨0, 0, 6144, 6144⟩) 24).backend = none →
        (verticesBackend.mk (some ⟨0, 0, 6144, 6144⟩) 24).head = 0) ∧
      (∀ b : Window, (verticesBackend.mk (some ⟨0, 0, 6144, 6144⟩) 24).backend = some b →
        len (some b) = 256 * 24 ∧
          (verticesBackend.mk (some ⟨0, 0, 6144, 6144⟩) 24).head + 24 ≤ len (some b) ∧
          ∃ s : Window,
            sliceExpr (some b) (verticesBackend.mk (some ⟨0, 0, 6144, 6144⟩) 24).head
              ((verticesBackend.mk (some ⟨0, 0, 6144, 6144⟩) 24).head + 24) = .ok (some s)) ∧
      ∃ r : Slice × Heap Int × verticesBackend,
        sliceForOneQuad (0 : Int) [List.replicate 6144 0]
          (verticesBackend.mk (some ⟨0, 0, 6144, 6144⟩) 24) = .ok r :=
  sliceForOneQuad_invariant (0 : Int) [List.replicate 6144 0] ⟨some ⟨0, 0, 6144, 6144⟩, 24⟩
    (Reachable.call (Reachable.init []) (sliceForOneQuad_none (0 : Int) [] 6144 rfl))

end graphicsutil

namespace graphicsutil

/-! ## Rounding to `float32` -/

theorem roundHalfEven_le (q : ℚ) (n : ℤ) (h : q ≤ n) : roundHalfEven q ≤ n := by
  have hfl : ⌊q⌋ ≤ n := Int.cast_le.mp (le_trans (Int.floor_le q) h)
  unfold roundHalfEven
  have hstep : ¬ (q - ⌊q⌋ < 1 / 2) → ⌊q⌋ + 1 ≤ n := by
    intro hfrac
    have hlt : (⌊q⌋ : ℚ) < n := by linarith
    have : ⌊q⌋ < n := Int.cast_lt.mp hlt
    omega
  split_ifs with h1 h2 h3
  · exact hfl
  · exact hstep h1
  · exact hfl
  · exact hstep h1

theorem le_roundHalfEven (q : ℚ) (n : ℤ) (h : (n : ℚ) ≤ q) : n ≤ roundHalfEven q := by
  have hfl : n ≤ ⌊q⌋ := Int.le_floor.mpr h
  unfold roundHalfEven
  split_ifs <;> omega

theorem roundHalfEven_intCast (n : ℤ) : roundHalfEven (n : ℚ) = n :=
  le_antisymm (roundHalfEven_le _ _ le_rfl) (le_roundHalfEven _ _ le_rfl)

theorem roundFloat32_nonneg (q : ℚ) (h : 0 ≤ q) : 0 ≤ roundFloat32 q := by
  unfold roundFloat32
  split_ifs with h0
  · exact le_rfl
  · have hpos : (0 : ℚ) < 2 ^ (Int.log 2 |q| - 23) := zpow_pos (by norm_num) _
    have : (0 : ℤ) ≤ roundHalfEven (q / 2 ^ (Int.log 2 |q| - 23)) :=
      le_roundHalfEven _ 0 (by simpa using div_nonneg h hpos.le)
    exact mul_nonneg (by exact_mod_cast this) hpos.le

theorem two_zpow_split (k L : ℤ) (d : ℕ) (h : k - (L - 23) = d) :
    (2 : ℚ) ^ k = ((2 ^ d : ℤ) : ℚ) * 2 ^ (L - 23) := by
  have hk : k = (d : ℤ) + (L - 23) := by omega
  subst hk
  rw [zpow_add₀ (by norm_num), zpow_natCast]
  push_cast
  rfl

theorem roundFloat32_le_two_zpow (q : ℚ) (k : ℤ) (h : q ≤ 2 ^ k) : roundFloat32 q ≤ 2 ^ k := by
  have h2k : (0 : ℚ) < 2 ^ k := zpow_pos (by norm_num) _
  unfold roundFloat32
  split_ifs with h0
  · exact h2k.le
  · have hpos : (0 : ℚ) < 2 ^ (Int.log 2 |q| - 23) := zpow_pos (by norm_num) _
    rcases lt_or_le q 0 with hneg | hnn
    · have : roundHalfEven (q / 2 ^ (Int.log 2 |q| - 23)) ≤ 0 :=
        roundHalfEven_le _ 0 (by simpa using (div_neg_of_neg_of_pos hneg hpos).le)
      have hle : (roundHalfEven (q / 2 ^ (Int.log 2 |q| - 23)) : ℚ) ≤ 0 := by exact_mod_cast this
      exact le_trans (mul_nonpos_of_nonpos_of_nonneg hle hpos.le) h2k.le
    · have hq : 0 < q := lt_of_le_of_ne hnn (Ne.symm h0)
      rw [abs_of_pos hq] at hpos ⊢
      have hlog : Int.log 2 q ≤ k := by
        have h1 : ((2 : ℕ) : ℚ) ^ Int.log 2 q ≤ q := Int.zpow_log_le_self (by norm_num) hq
        have h2 : ((2 : ℕ) : ℚ) ^ Int.log 2 q ≤ ((2 : ℕ) : ℚ) ^ k :=
          le_trans h1 (by simpa using h)
        exact (zpow_le_zpow_iff_right₀ (by norm_num)).mp h2
      obtain ⟨d, hd⟩ : ∃ d : ℕ, k - (Int.log 2 q - 23) = d :=
        ⟨(k - (Int.log 2 q - 23)).toNat, by omega⟩
      have hsplit := two_zpow_split k (Int.log 2 q) d hd
      have hdiv : q / 2 ^ (Int.log 2 q - 23) ≤ ((2 ^ d : ℤ) : ℚ) := by
        rw [div_le_iff₀ hpos, ← hsplit]
        exact h
      have hr := roundHalfEven_le _ _ hdiv
      rw [hsplit]
      exact mul_le_mul_of_nonneg_right (by exact_mod_cast hr) hpos.le

/-- Values with a significand of fewer than 24 bits are their own rounding. -/
theorem roundFloat32_exact (m k : ℤ) (hm : |m| < 2 ^ 24) :
    roundFloat32 (m * 2 ^ k) = m * 2 ^ k := by
  unfold roundFloat32
  split_ifs with h0
  · exact h0.symm
  · have h2k : (0 : ℚ) < 2 ^ k := zpow_pos (by norm_num) _
    have hqpos : 0 < |(m : ℚ) * 2 ^ k| := abs_pos.mpr h0
    have habs : |(m : ℚ) * 2 ^ k| = (|m| : ℤ) * 2 ^ k := by
      rw [abs_mul, abs_of_pos h2k, Int.cast_abs]
    have hlog : Int.log 2 |(m : ℚ) * 2 ^ k| < k + 24 := by
      rw [← Int.lt_zpow_iff_log_lt (by norm_num) hqpos, habs, add_comm, zpow_add₀ (by norm_num)]
      have hm' : ((|m| : ℤ) : ℚ) < 2 ^ (24 : ℤ) := by exact_mod_cast hm
      simpa using mul_lt_mul_of_pos_right hm' h2k
    generalize Int.log 2 |(m : ℚ) * 2 ^ k| = L at hlog ⊢
    obtain ⟨d, hd⟩ : ∃ d : ℕ, k - (L - 23) = d := ⟨(k - (L - 23)).toNat, by omega⟩
    have hpos : (0 : ℚ) < 2 ^ (L - 23) := zpow_pos (by norm_num) _
    have hsplit := two_zpow_split k L d hd
    have hint : (m : ℚ) * 2 ^ k / 2 ^ (L - 23) = ((m * 2 ^ d : ℤ) : ℚ) := by
      rw [div_eq_iff hpos.ne', hsplit]
      push_cast
      ring
    rw [hint, roundHalfEven_intCast, hsplit]
    push_cast
    ring

theorem f32_ofInt_exact (n : ℤ) (hn : |n| < 2 ^ 24) : f32.ofInt n = n := by
  have := roundFloat32_exact n 0 hn
  simpa [f32] using this

theorem f32_ofInt_two_pow (i : ℕ) : f32.ofInt (2 ^ i) = 2 ^ i := by
  have := roundFloat32_exact 1 i (by norm_num)
  simpa [f32] using this

end graphicsutil

namespace graphicsutil

/-! ## Writing a quad into its window -/

theorem overwrite_length {F : Type} (vals : List F) :
    ∀ (a : List F) (off : Nat), (overwrite a off vals).length = a.length := by
  induction vals with
  | nil => intro a off; rfl
  | cons x xs ih => intro a off; rw [overwrite, ih, List.length_set]

theorem overwrite_getElem?_lt {F : Type} (vals : List F) :
    ∀ (a : List F) (off j : Nat), j < off → (overwrite a off vals)[j]? = a[j]? := by
  induction vals with
  | nil => intro a off j _; rfl
  | cons x xs ih =>
    intro a off j hj
    rw [overwrite, ih _ _ _ (by omega), List.getElem?_set_ne (by omega)]

theorem overwrite_drop_take {F : Type} (vals : List F) :
    ∀ (a : List F) (off : Nat), off + vals.length ≤ a.length →
      ((overwrite a off vals).drop off).take vals.length = vals := by
  induction vals with
  | nil => intro a off _; simp
  | cons x xs ih =>
    intro a off h
    rw [List.length_cons] at h
    have hlen : off < (overwrite a off (x :: xs)).length := by
      rw [overwrite_length]; omega
    have hget : (overwrite a off (x :: xs))[off] = x := by
      have h1 : (overwrite a off (x :: xs))[off]? = some x := by
        rw [overwrite, overwrite_getElem?_lt _ _ _ _ (Nat.lt_succ_self off),
          List.getElem?_set_self (by omega)]
      rw [List.getElem?_eq_getElem hlen] at h1
      exact Option.some.inj h1
    rw [List.drop_eq_getElem_cons hlen, hget, List.length_cons, List.take_succ_cons]
    congr 1
    rw [overwrite]
    exact ih _ _ (by rw [List.length_set]; omega)

theorem setIndex_set {F : Type} (heap : Heap F) (s : Window) (A : List F) (i : Nat) (x : F)
    (harr : s.arr < heap.length) (hi : i < s.len) :
    setIndex (heap.set s.arr A) (some s) i x = .ok (heap.set s.arr (A.set (s.off + i) x)) := by
  rw [setIndex_some, if_pos hi, List.set_set]
  congr 3
  rw [List.getD_eq_getElem?_getD, List.getElem?_set_self harr, Option.getD_some]

theorem getD_set_self {α : Type} (l : List α) (i : Nat) (x d : α) (h : i < l.length) :
    (l.set i x).getD i d = x := by
  rw [List.getD_eq_getElem?_getD, List.getElem?_set_self h, Option.getD_some]

theorem getD_set_ne {α : Type} (l : List α) (i j : Nat) (x d : α) (h : i ≠ j) :
    (l.set i x).getD j d = l.getD j d := by
  rw [List.getD_eq_getElem?_getD, List.getElem?_set_ne h, List.getD_eq_getElem?_getD]

/-- The result of `quadVerticesImpl`, given what its call of `sliceForOneQuad` returns. -/
theorem quadVerticesImpl_eq {F : Type} (zero : F) (u0 v0 u1 v1 x0 y0 x1 y1 : F) (geom : GeoM F)
    (m : Mem F) (s : Window) (heap' : Heap F) (v' : verticesBackend)
    (hrun : sliceForOneQuad zero m.heap m.theVerticesBackend = .ok (some s, heap', v'))
    (hlen : s.len = 24) (harr : s.arr < heap'.length) :
    quadVerticesImpl zero u0 v0 u1 v1 x0 y0 x1 y1 geom m =
      .ok (some s, ⟨heap'.set s.arr (overwrite (heap'.getD s.arr []) s.off
        (quadFloats u0 v0 u1 v1 x0 y0 x1 y1 geom)), v'⟩) := by
  have hw0 : ∀ x : F, setIndex heap' (some s) 0 x =
      .ok (heap'.set s.arr ((heap'.getD s.arr []).set (s.off + 0) x)) := by
    intro x
    rw [setIndex_some, if_pos (by omega)]
  have hw : ∀ (A : List F) (i : Nat) (x : F), i < 24 →
      setIndex (heap'.set s.arr A) (some s) i x =
        .ok (heap'.set s.arr (A.set (s.off + i) x)) :=
    fun A i x hi => setIndex_set heap' s A i x harr (by omega)
  unfold quadVerticesImpl
  rw [hrun]
  simp only [bind, Except.bind]
  simp only [hw0, hw _ 1 _ (by decide), hw _ 2 _ (by decide),
    hw _ 3 _ (by decide), hw _ 4 _ (by decide), hw _ 5 _ (by decide), hw _ 6 _ (by decide),
    hw _ 7 _ (by decide), hw _ 8 _ (by decide), hw _ 9 _ (by decide), hw _ 10 _ (by decide),
    hw _ 11 _ (by decide), hw _ 12 _ (by decide), hw _ 13 _ (by decide),
    hw _ 14 _ (by decide), hw _ 15 _ (by decide), hw _ 16 _ (by decide),
    hw _ 17 _ (by decide), hw _ 18 _ (by decide), hw _ 19 _ (by decide),
    hw _ 20 _ (by decide), hw _ 21 _ (by decide), hw _ 22 _ (by decide),
    hw _ 23 _ (by decide), pure, Except.pure, quadFloats, overwrite, Nat.add_zero,
    Nat.add_assoc, Nat.reduceAdd]

theorem quadVerticesImpl_ok {F : Type} (zero : F) (u0 v0 u1 v1 x0 y0 x1 y1 : F) (geom : GeoM F)
    (m : Mem F) (hok : backendOK m.heap m.theVerticesBackend) :
    ∃ (vs : Window) (m' : Mem F),
      quadVerticesImpl zero u0 v0 u1 v1 x0 y0 x1 y1 geom m = .ok (some vs, m') ∧
        floats m'.heap (some vs) = quadFloats u0 v0 u1 v1 x0 y0 x1 y1 geom ∧
        backendOK m'.heap m'.theVerticesBackend := by
  obtain ⟨s, heap', v', hrun, hok', hlen, harr, hroom⟩ :=
    sliceForOneQuad_ok zero m.heap m.theVerticesBackend hok
  refine ⟨s, ⟨heap'.set s.arr (overwrite (heap'.getD s.arr []) s.off
    (quadFloats u0 v0 u1 v1 x0 y0 x1 y1 geom)), v'⟩,
    quadVerticesImpl_eq zero u0 v0 u1 v1 x0 y0 x1 y1 geom m s heap' v' hrun hlen harr, ?_, ?_⟩
  · show (List.drop s.off (List.getD (List.set heap' s.arr _) s.arr [])).take s.len = _
    rw [getD_set_self _ _ _ _ harr, hlen]
    exact overwrite_drop_take (quadFloats u0 v0 u1 v1 x0 y0 x1 y1 geom) _ _ hroom
  · obtain ⟨h0, hmod, hrest⟩ := hok'
    refine ⟨h0, hmod, ?_⟩
    cases hb : v'.backend with
    | none => rw [hb] at hrest; exact hrest
    | some b =>
      rw [hb] at hrest
      obtain ⟨h1, h2, h3, h4, h5, h6⟩ := hrest
      refine ⟨by rw [List.length_set]; exact h1, h2, h3, h4, ?_, h6⟩
      show (List.getD (List.set heap' s.arr _) b.arr []).length = 6144
      by_cases hsame : s.arr = b.arr
      · rw [← hsame, getD_set_self _ _ _ _ harr, overwrite_length, hsame]
        exact h5
      · rw [getD_set_ne _ _ _ _ _ hsame]
        exact h5

theorem set_getD_self {α : Type} (l : List α) (i : Nat) (d : α) (h : i < l.length) :
    l.set i (l.getD i d) = l := by
  apply List.ext_getElem?
  intro j
  by_cases hij : i = j
  · subst hij
    rw [List.getElem?_set_self h, List.getD_eq_getElem?_getD, List.getElem?_eq_getElem h,
      Option.getD_some]
  · rw [List.getElem?_set_ne hij]

theorem Reachable.overwrite {F : Type} {zero : F} (heap : Heap F) (v : verticesBackend)
    (s : Window) (harr : s.arr < heap.length) (vals : List F) :
    ∀ (A : List F) (i : Nat), i + vals.length ≤ s.len →
      Reachable zero (heap.set s.arr A) v →
      Reachable zero (heap.set s.arr (graphicsutil.overwrite A (s.off + i) vals)) v := by
  induction vals with
  | nil => intro A i _ h; exact h
  | cons x xs ih =>
    intro A i hi h
    rw [List.length_cons] at hi
    rw [graphicsutil.overwrite, Nat.add_assoc]
    exact ih _ (i + 1) (by omega)
      (Reachable.assign (some s) i x h (setIndex_set heap s A i x harr (by omega)))

/-- `quadVerticesImpl` leads from reachable allocator states to reachable ones. -/
theorem quadVerticesImpl_reachable {F : Type} (zero : F) (u0 v0 u1 v1 x0 y0 x1 y1 : F)
    (geom : GeoM F) (m m' : Mem F) (vs : Slice)
    (hreach : Reachable zero m.heap m.theVerticesBackend)
    (hrun : quadVerticesImpl zero u0 v0 u1 v1 x0 y0 x1 y1 geom m = .ok (vs, m')) :
    Reachable zero m'.heap m'.theVerticesBackend := by
  obtain ⟨s, heap', v', hslice, _, hlen, harr, _⟩ :=
    sliceForOneQuad_ok zero m.heap m.theVerticesBackend hreach.consistent
  rw [quadVerticesImpl_eq zero u0 v0 u1 v1 x0 y0 x1 y1 geom m s heap' v' hslice hlen harr] at hrun
  injection hrun with hrun
  injection hrun with _ hm
  subst hm
  have hcall : Reachable zero (heap'.set s.arr (heap'.getD s.arr [])) v' := by
    rw [set_getD_self heap' s.arr [] harr]
    exact Reachable.call hreach hslice
  have h := Reachable.overwrite heap' v' s harr (quadFloats u0 v0 u1 v1 x0 y0 x1 y1 geom)
    (heap'.getD s.arr []) 0 (by rw [hlen]; exact Nat.le_of_eq rfl) hcall
  exact h

end graphicsutil

namespace graphicsutil

/-! ## `QuadVertices` -/

theorem QuadVertices_degenerate {F : Type} (ops : FloatOps F) (fuel : Nat)
    (width height sx0 sy0 sx1 sy1 : Int) (geom : GeoM F) (m : Mem F)
    (h : sx0 ≥ sx1 ∨ sy0 ≥ sy1 ∨ sx1 ≤ 0 ∨ sy1 ≤ 0) :
    QuadVertices ops fuel width height sx0 sy0 sx1 sy1 geom m = .ok (none, m) := by
  unfold QuadVertices
  by_cases h1 : sx0 ≥ sx1 ∨ sy0 ≥ sy1
  · rw [if_pos h1]; rfl
  · rw [if_neg h1]
    have h2 : sx1 ≤ 0 ∨ sy1 ≤ 0 := by
      rcases h with h | h | h | h
      · exact absurd (Or.inl h) h1
      · exact absurd (Or.inr h) h1
      · exact Or.inl h
      · exact Or.inr h
    rw [if_pos h2]; rfl

/-- On an accepted rectangle `QuadVertices` is the padding loops followed by
`quadVerticesImpl`. -/
theorem QuadVertices_accepted {F : Type} (ops : FloatOps F) (fuel : Nat)
    (width height sx0 sy0 sx1 sy1 : Int) (geom : GeoM F) (m : Mem F)
    (hx : sx0 < sx1) (hy : sy0 < sy1) (hx1 : 0 < sx1) (hy1 : 0 < sy1) :
    QuadVertices ops fuel width height sx0 sy0 sx1 sy1 geom m =
      (paddedSize fuel width height).bind fun wh =>
        quadVerticesImpl ops.zero
          (ops.div (ops.ofInt sx0) (ops.ofInt wh.1)) (ops.div (ops.ofInt sy0) (ops.ofInt wh.2))
          (ops.div (ops.ofInt sx1) (ops.ofInt wh.1)) (ops.div (ops.ofInt sy1) (ops.ofInt wh.2))
          ops.zero ops.zero (ops.ofInt (wrapInt (sx1 - sx0))) (ops.ofInt (wrapInt (sy1 - sy0)))
          geom m := by
  unfold QuadVertices
  rw [if_neg (by omega), if_neg (by omega)]
  rfl

/-- On an accepted rectangle, with both sizes at most `2 ^ 62` and the allocator in a
consistent state, `QuadVertices` returns a slice holding `quadFloats` of the texture
coordinates and the corner positions. -/
theorem QuadVertices_ok {F : Type} (ops : FloatOps F) (fuel : Nat)
    (width height sx0 sy0 sx1 sy1 : Int) (geom : GeoM F) (m : Mem F)
    (hx : sx0 < sx1) (hy : sy0 < sy1) (hx1 : 0 < sx1) (hy1 : 0 < sy1)
    (hfuel : 63 ≤ fuel) (hw : width ≤ 2 ^ 62) (hh : height ≤ 2 ^ 62)
    (hok : backendOK m.heap m.theVerticesBackend) :
    ∃ (i j : Nat) (vs : Window) (m' : Mem F),
      paddedSize fuel width height = .ok (2 ^ i, 2 ^ j) ∧ i ≤ 62 ∧ j ≤ 62 ∧
      width ≤ 2 ^ i ∧ height ≤ 2 ^ j ∧
      (i = 0 ∨ (2 : Int) ^ (i - 1) < width) ∧ (j = 0 ∨ (2 : Int) ^ (j - 1) < height) ∧
      QuadVertices ops fuel width height sx0 sy0 sx1 sy1 geom m = .ok (some vs, m') ∧
      floats m'.heap (some vs) =
        quadFloats
          (ops.div (ops.ofInt sx0) (ops.ofInt (2 ^ i))) (ops.div (ops.ofInt sy0) (ops.ofInt (2 ^ j)))
          (ops.div (ops.ofInt sx1) (ops.ofInt (2 ^ i))) (ops.div (ops.ofInt sy1) (ops.ofInt (2 ^ j)))
          ops.zero ops.zero (ops.ofInt (wrapInt (sx1 - sx0))) (ops.ofInt (wrapInt (sy1 - sy0)))
          geom ∧
      backendOK m'.heap m'.theVerticesBackend := by
  obtain ⟨i, j, hpad, hi, hj, hwle, hhle, hwmin, hhmin⟩ :=
    paddedSize_ok fuel width height hfuel hw hh
  obtain ⟨vs, m', hrun, hfl, hok'⟩ := quadVerticesImpl_ok ops.zero
    (ops.div (ops.ofInt sx0) (ops.ofInt (2 ^ i))) (ops.div (ops.ofInt sy0) (ops.ofInt (2 ^ j)))
    (ops.div (ops.ofInt sx1) (ops.ofInt (2 ^ i))) (ops.div (ops.ofInt sy1) (ops.ofInt (2 ^ j)))
    ops.zero ops.zero (ops.ofInt (wrapInt (sx1 - sx0))) (ops.ofInt (wrapInt (sy1 - sy0)))
    geom m hok
  refine ⟨i, j, vs, m', hpad, hi, hj, hwle, hhle, hwmin, hhmin, ?_, hfl, hok'⟩
  rw [QuadVertices_accepted ops fuel width height sx0 sy0 sx1 sy1 geom m hx hy hx1 hy1, hpad,
    Except.bind, hrun]

/-- Whatever non-nil slice `QuadVertices` returns (in a consistent allocator state) holds
`quadFloats` of the texture coordinates and the corner positions. -/
theorem QuadVertices_some {F : Type} (ops : FloatOps F) (fuel : Nat)
    (width height sx0 sy0 sx1 sy1 : Int) (geom : GeoM F) (m m' : Mem F) (vs : Window)
    (hok : backendOK m.heap m.theVerticesBackend)
    (hrun : QuadVertices ops fuel width height sx0 sy0 sx1 sy1 geom m = .ok (some vs, m')) :
    ∃ w h : Int, paddedSize fuel width height = .ok (w, h) ∧
      floats m'.heap (some vs) =
        quadFloats
          (ops.div (ops.ofInt sx0) (ops.ofInt w)) (ops.div (ops.ofInt sy0) (ops.ofInt h))
          (ops.div (ops.ofInt sx1) (ops.ofInt w)) (ops.div (ops.ofInt sy1) (ops.ofInt h))
          ops.zero ops.zero (ops.ofInt (wrapInt (sx1 - sx0))) (ops.ofInt (wrapInt (sy1 - sy0)))
          geom := by
  by_cases hdeg : sx0 ≥ sx1 ∨ sy0 ≥ sy1 ∨ sx1 ≤ 0 ∨ sy1 ≤ 0
  · rw [QuadVertices_degenerate ops fuel width height sx0 sy0 sx1 sy1 geom m hdeg] at hrun
    injection hrun with hrun
    injection hrun with hnil _
    cases hnil
  · rw [QuadVertices_accepted ops fuel width height sx0 sy0 sx1 sy1 geom m (by omega) (by omega)
      (by omega) (by omega)] at hrun
    cases hpad : paddedSize fuel width height with
    | error e => rw [hpad] at hrun; cases hrun
    | ok wh =>
      obtain ⟨w, h⟩ := wh
      rw [hpad, Except.bind] at hrun
      obtain ⟨vs', m'', hrun', hfl, _⟩ := quadVerticesImpl_ok ops.zero
        (ops.div (ops.ofInt sx0) (ops.ofInt w)) (ops.div (ops.ofInt sy0) (ops.ofInt h))
        (ops.div (ops.ofInt sx1) (ops.ofInt w)) (ops.div (ops.ofInt sy1) (ops.ofInt h))
        ops.zero ops.zero (ops.ofInt (wrapInt (sx1 - sx0))) (ops.ofInt (wrapInt (sy1 - sy0)))
        geom m hok
      simp only at hrun
      rw [hrun'] at hrun
      injection hrun with hrun
      injection hrun with h1 h2
      injection h1 with h1
      subst h1 h2
      exact ⟨w, h, rfl, hfl⟩

end graphicsutil

namespace graphicsutil

/-! ## Claims about `QuadVertices` -/

theorem wrapInt_sub_of_lt (a b : Int) (hab : a < b) (h : b - a < 2 ^ 63) :
    wrapInt (b - a) = b - a :=
  wrapInt_eq _ (by omega) h

/-- C2 (as amended): for `width, height ≤ 2 ^ 62`, every rectangle with `sx0 < sx1`,
`sy0 < sy1`, `sx1 > 0`, `sy1 > 0`, and the allocator in a reachable state, `QuadVertices`
with the identity transform returns (63 checks per padding loop are enough) a slice of
exactly 24 floats whose position pairs at indices (0,1), (6,7), (12,13), (18,19) are
`(0, 0)`, `(x1, 0)`, `(0, y1)`, `(x1, y1)` with `x1 = float32(sx1-sx0)`,
`y1 = float32(sy1-sy0)`, the differences being Go `int` differences, which are the exact
ones whenever those are below `2 ^ 63`. -/
theorem QuadVertices_identity_positions {F : Type} (ops : FloatOps F) (fuel : Nat)
    (width height sx0 sy0 sx1 sy1 : Int) (m : Mem F)
    (hx : sx0 < sx1) (hy : sy0 < sy1) (hx1 : 0 < sx1) (hy1 : 0 < sy1)
    (hfuel : 63 ≤ fuel) (hw : width ≤ 2 ^ 62) (hh : height ≤ 2 ^ 62)
    (hreach : Reachable ops.zero m.heap m.theVerticesBackend) :
    ∃ (vs : Window) (m' : Mem F),
      QuadVertices ops fuel width height sx0 sy0 sx1 sy1 GeoM.identity m = .ok (some vs, m') ∧
      (floats m'.heap (some vs)).length = 24 ∧
      (floats m'.heap (some vs))[0]? = some ops.zero ∧
      (floats m'.heap (some vs))[1]? = some ops.zero ∧
      (floats m'.heap (some vs))[6]? = some (ops.ofInt (wrapInt (sx1 - sx0))) ∧
      (floats m'.heap (some vs))[7]? = some ops.zero ∧
      (floats m'.heap (some vs))[12]? = some ops.zero ∧
      (floats m'.heap (some vs))[13]? = some (ops.ofInt (wrapInt (sy1 - sy0))) ∧
      (floats m'.heap (some vs))[18]? = some (ops.ofInt (wrapInt (sx1 - sx0))) ∧
      (floats m'.heap (some vs))[19]? = some (ops.ofInt (wrapInt (sy1 - sy0))) ∧
      (sx1 - sx0 < 2 ^ 63 → wrapInt (sx1 - sx0) = sx1 - sx0) ∧
      (sy1 - sy0 < 2 ^ 63 → wrapInt (sy1 - sy0) = sy1 - sy0) := by
  obtain ⟨i, j, vs, m', _, _, _, _, _, _, _, hrun, hfl, _⟩ :=
    QuadVertices_ok ops fuel width height sx0 sy0 sx1 sy1 GeoM.identity m hx hy hx1 hy1 hfuel
      hw hh hreach.consistent
  refine ⟨vs, m', hrun, ?_, ?_, ?_, ?_, ?_, ?_, ?_, ?_, ?_,
    wrapInt_sub_of_lt sx0 sx1 hx, wrapInt_sub_of_lt sy0 sy1 hy⟩ <;> rw [hfl] <;> rfl

theorem QuadVertices_identity_positions_witness :
    ∃ (vs : Window) (m' : Mem ℚ),
      QuadVertices f32 63 256 128 0 0 100 50 GeoM.identity Mem.init = .ok (some vs, m') ∧
      (floats m'.heap (some vs)).length = 24 ∧
      (floats m'.heap (some vs))[0]? = some f32.zero ∧
      (floats m'.heap (some vs))[1]? = some f32.zero ∧
      (floats m'.heap (some vs))[6]? = some (f32.ofInt (wrapInt (100 - 0))) ∧
      (floats m'.heap (some vs))[7]? = some f32.zero ∧
      (floats m'.heap (some vs))[12]? = some f32.zero ∧
      (floats m'.heap (some vs))[13]? = some (f32.ofInt (wrapInt (50 - 0))) ∧
      (floats m'.heap (some vs))[18]? = some (f32.ofInt (wrapInt (100 - 0))) ∧
      (floats m'.heap (some vs))[19]? = some (f32.ofInt (wrapInt (50 - 0))) ∧
      ((100 : Int) - 0 < 2 ^ 63 → wrapInt (100 - 0) = 100 - 0) ∧
      ((50 : Int) - 0 < 2 ^ 63 → wrapInt (50 - 0) = 50 - 0) :=
  QuadVertices_identity_positions f32 63 256 128 0 0 100 50 Mem.init (by decide) (by decide)
    (by decide) (by decide) (by decide) (by decide) (by decide) (Reachable.init [])

/-- C2 (as stated) fails: with `width = 2 ^ 62 + 1` the call
`QuadVertices(2^62+1, 128, 0, 0, 100, 50, identity)` never returns, because the doubling of
`w` wraps around to `0` before reaching `width`. -/
theorem QuadVertices_no_result_above_2_pow_62 :
    ¬ ∃ (fuel : Nat) (r : Slice × Mem ℚ),
      QuadVertices f32 fuel (2 ^ 62 + 1) 128 0 0 100 50 GeoM.identity Mem.init = .ok r := by
  rintro ⟨fuel, r, h⟩
  have hdiv := doubleUntil_overflow fuel 1 (Or.inr (Or.inr ⟨0, by omega, by norm_num⟩))
  rw [QuadVertices_accepted f32 fuel (2 ^ 62 + 1) 128 0 0 100 50 GeoM.identity Mem.init
    (by decide) (by decide) (by decide) (by decide)] at h
  simp only [paddedSize, bind, Except.bind, hdiv] at h
  cases h

/-- C3: a source rectangle with `sx0 >= sx1`, or `sy0 >= sy1`, or `sx1 <= 0`, or `sy1 <= 0`
makes `QuadVertices` return `nil` (no floats) normally, for every size, transform and state,
without running a loop and leaving the state as it was. -/
theorem QuadVertices_rejects {F : Type} (ops : FloatOps F) (fuel : Nat)
    (width height sx0 sy0 sx1 sy1 : Int) (geom : GeoM F) (m : Mem F)
    (h : sx0 ≥ sx1 ∨ sy0 ≥ sy1 ∨ sx1 ≤ 0 ∨ sy1 ≤ 0) :
    QuadVertices ops fuel width height sx0 sy0 sx1 sy1 geom m = .ok (none, m) ∧
      floats m.heap none = [] :=
  ⟨QuadVertices_degenerate ops fuel width height sx0 sy0 sx1 sy1 geom m h, rfl⟩

theorem QuadVertices_rejects_witness :
    QuadVertices f32 0 256 128 10 0 10 5 GeoM.identity Mem.init = .ok (none, Mem.init) ∧
      floats (Mem.init : Mem ℚ).heap none = [] :=
  QuadVertices_rejects f32 0 256 128 10 0 10 5 GeoM.identity Mem.init (Or.inl (by decide))

/-- C4: whenever `QuadVertices` returns a non-nil slice (any transform, allocator in a
reachable state), the slice holds 24 floats; for each vertex `i < 4` the opposite-UV pair
(floats `6i+4`, `6i+5`) equals the own-UV pair (floats `6j+2`, `6j+3`) of vertex
`j = 3 - i`; and the own-UV pairs of vertices 0..3 are `(u0,v0)`, `(u1,v0)`, `(u0,v1)`,
`(u1,v1)`, where `u0 = sx0/w`, `v0 = sy0/h`, `u1 = sx1/w`, `v1 = sy1/h` in `float32` and
`(w, h)` is the padded size. -/
theorem QuadVertices_opposite_uv {F : Type} (ops : FloatOps F) (fuel : Nat)
    (width height sx0 sy0 sx1 sy1 : Int) (geom : GeoM F) (m m' : Mem F) (vs : Window)
    (hreach : Reachable ops.zero m.heap m.theVerticesBackend)
    (hrun : QuadVertices ops fuel width height sx0 sy0 sx1 sy1 geom m = .ok (some vs, m')) :
    (floats m'.heap (some vs)).length = 24 ∧
      (∀ i : Nat, i < 4 →
        (floats m'.heap (some vs))[6 * i + 4]? = (floats m'.heap (some vs))[6 * (3 - i) + 2]? ∧
        (floats m'.heap (some vs))[6 * i + 5]? = (floats m'.heap (some vs))[6 * (3 - i) + 3]?) ∧
      ∃ w h : Int, paddedSize fuel width height = .ok (w, h) ∧
        (floats m'.heap (some vs))[2]? = some (ops.div (ops.ofInt sx0) (ops.ofInt w)) ∧
        (floats m'.heap (some vs))[3]? = some (ops.div (ops.ofInt sy0) (ops.ofInt h)) ∧
        (floats m'.heap (some vs))[8]? = some (ops.div (ops.ofInt sx1) (ops.ofInt w)) ∧
        (floats m'.heap (some vs))[9]? = some (ops.div (ops.ofInt sy0) (ops.ofInt h)) ∧
        (floats m'.heap (some vs))[14]? = some (ops.div (ops.ofInt sx0) (ops.ofInt w)) ∧
        (floats m'.heap (some vs))[15]? = some (ops.div (ops.ofInt sy1) (ops.ofInt h)) ∧
        (floats m'.heap (some vs))[20]? = some (ops.div (ops.ofInt sx1) (ops.ofInt w)) ∧
        (floats m'.heap (some vs))[21]? = some (ops.div (ops.ofInt sy1) (ops.ofInt h)) := by
  obtain ⟨w, h, hpad, hfl⟩ := QuadVertices_some ops fuel width height sx0 sy0 sx1 sy1 geom m m'
    vs hreach.consistent hrun
  rw [hfl]
  refine ⟨rfl, ?_, w, h, hpad, rfl, rfl, rfl, rfl, rfl, rfl, rfl, rfl⟩
  intro i hi
  interval_cases i <;> exact ⟨rfl, rfl⟩

theorem QuadVertices_opposite_uv_witness :
    ∃ (vs : Window) (m' : Mem ℚ),
      QuadVertices f32 63 256 128 0 0 100 50 GeoM.identity Mem.init = .ok (some vs, m') ∧
      (floats m'.heap (some vs)).length = 24 ∧
      (∀ i : Nat, i < 4 →
        (floats m'.heap (some vs))[6 * i + 4]? = (floats m'.heap (some vs))[6 * (3 - i) + 2]? ∧
        (floats m'.heap (some vs))[6 * i + 5]? = (floats m'.heap (some vs))[6 * (3 - i) + 3]?) ∧
      ∃ w h : Int, paddedSize 63 256 128 = .ok (w, h) ∧
        (floats m'.heap (some vs))[2]? = some (f32.div (f32.ofInt 0) (f32.ofInt w)) ∧
        (floats m'.heap (some vs))[3]? = some (f32.div (f32.ofInt 0) (f32.ofInt h)) ∧
        (floats m'.heap (some vs))[8]? = some (f32.div (f32.ofInt 100) (f32.ofInt w)) ∧
        (floats m'.heap (some vs))[9]? = some (f32.div (f32.ofInt 0) (f32.ofInt h)) ∧
        (floats m'.heap (some vs))[14]? = some (f32.div (f32.ofInt 0) (f32.ofInt w)) ∧
        (floats m'.heap (some vs))[15]? = some (f32.div (f32.ofInt 50) (f32.ofInt h)) ∧
        (floats m'.heap (some vs))[20]? = some (f32.div (f32.ofInt 100) (f32.ofInt w)) ∧
        (floats m'.heap (some vs))[21]? = some (f32.div (f32.ofInt 50) (f32.ofInt h)) := by
  obtain ⟨_, _, vs, m', _, _, _, _, _, _, _, hrun, _, _⟩ :=
    QuadVertices_ok f32 63 256 128 0 0 100 50 GeoM.identity Mem.init (by decide) (by decide)
      (by decide) (by decide) (by decide) (by decide) (by decide) (backendOK_empty [])
  exact ⟨vs, m', hrun, QuadVertices_opposite_uv f32 63 256 128 0 0 100 50 GeoM.identity
    Mem.init m' vs (Reachable.init []) hrun⟩

end graphicsutil

namespace graphicsutil

/-! ## Texture coordinates in the `float32` model -/

theorem f32_div_eq (a b : ℚ) : f32.div a b = roundFloat32 (a / b) := rfl

theorem f32_ofInt_eq (n : Int) : f32.ofInt n = roundFloat32 n := rfl

theorem texCoord_unit (s : Int) (i : Nat) (h0 : 0 ≤ s) (h1 : s ≤ 2 ^ i) :
    0 ≤ f32.div (f32.ofInt s) (f32.ofInt (2 ^ i)) ∧
      f32.div (f32.ofInt s) (f32.ofInt (2 ^ i)) ≤ 1 := by
  have hpos : (0 : ℚ) < 2 ^ i := by positivity
  have ha0 : 0 ≤ roundFloat32 (s : ℚ) := roundFloat32_nonneg _ (by exact_mod_cast h0)
  have ha1 : roundFloat32 (s : ℚ) ≤ 2 ^ i := by
    have h := roundFloat32_le_two_zpow (s : ℚ) (i : ℤ) (by
      rw [zpow_natCast]
      exact_mod_cast h1)
    rwa [zpow_natCast] at h
  rw [f32_ofInt_two_pow, f32_div_eq, f32_ofInt_eq]
  constructor
  · exact roundFloat32_nonneg _ (div_nonneg ha0 hpos.le)
  · have h := roundFloat32_le_two_zpow (roundFloat32 (s : ℚ) / 2 ^ i) 0 (by
      rw [zpow_zero, div_le_one hpos]
      exact ha1)
    rwa [zpow_zero] at h

/-- C9 (as amended): for an accepted rectangle, `width, height ≤ 2 ^ 62` and the allocator
in a reachable state, `QuadVertices` returns (63 checks per padding loop are enough) a quad
whose texture coordinates are `u0 = sx0/w`, `v0 = sy0/h`, `u1 = sx1/w`, `v1 = sy1/h` in
`float32`, where `w = 2 ^ i ≥ width` and `h = 2 ^ j ≥ height` are the padded sizes (the
least such powers of two); `u0` and `u1` lie in `[0, 1]` when `0 ≤ sx0` and `sx1 ≤ w`, and
`v0` and `v1` lie in `[0, 1]` when `0 ≤ sy0` and `sy1 ≤ h`. -/
theorem QuadVertices_texcoords (fuel : Nat) (width height sx0 sy0 sx1 sy1 : Int)
    (geom : GeoM ℚ) (m : Mem ℚ)
    (hx : sx0 < sx1) (hy : sy0 < sy1) (hx1 : 0 < sx1) (hy1 : 0 < sy1)
    (hfuel : 63 ≤ fuel) (hw : width ≤ 2 ^ 62) (hh : height ≤ 2 ^ 62)
    (hreach : Reachable f32.zero m.heap m.theVerticesBackend) :
    ∃ (i j : Nat) (vs : Window) (m' : Mem ℚ),
      paddedSize fuel width height = .ok (2 ^ i, 2 ^ j) ∧
      width ≤ 2 ^ i ∧ height ≤ 2 ^ j ∧
      (i = 0 ∨ (2 : Int) ^ (i - 1) < width) ∧ (j = 0 ∨ (2 : Int) ^ (j - 1) < height) ∧
      QuadVertices f32 fuel width height sx0 sy0 sx1 sy1 geom m = .ok (some vs, m') ∧
      (floats m'.heap (some vs))[2]? = some (f32.div (f32.ofInt sx0) (f32.ofInt (2 ^ i))) ∧
      (floats m'.heap (some vs))[3]? = some (f32.div (f32.ofInt sy0) (f32.ofInt (2 ^ j))) ∧
      (floats m'.heap (some vs))[20]? = some (f32.div (f32.ofInt sx1) (f32.ofInt (2 ^ i))) ∧
      (floats m'.heap (some vs))[21]? = some (f32.div (f32.ofInt sy1) (f32.ofInt (2 ^ j))) ∧
      (0 ≤ sx0 → sx1 ≤ 2 ^ i →
        0 ≤ f32.div (f32.ofInt sx0) (f32.ofInt (2 ^ i)) ∧
        f32.div (f32.ofInt sx0) (f32.ofInt (2 ^ i)) ≤ 1 ∧
        0 ≤ f32.div (f32.ofInt sx1) (f32.ofInt (2 ^ i)) ∧
        f32.div (f32.ofInt sx1) (f32.ofInt (2 ^ i)) ≤ 1) ∧
      (0 ≤ sy0 → sy1 ≤ 2 ^ j →
        0 ≤ f32.div (f32.ofInt sy0) (f32.ofInt (2 ^ j)) ∧
        f32.div (f32.ofInt sy0) (f32.ofInt (2 ^ j)) ≤ 1 ∧
        0 ≤ f32.div (f32.ofInt sy1) (f32.ofInt (2 ^ j)) ∧
        f32.div (f32.ofInt sy1) (f32.ofInt (2 ^ j)) ≤ 1) := by
  obtain ⟨i, j, vs, m', hpad, _, _, hwle, hhle, hwmin, hhmin, hrun, hfl, _⟩ :=
    QuadVertices_ok f32 fuel width height sx0 sy0 sx1 sy1 geom m hx hy hx1 hy1 hfuel
      hw hh hreach.consistent
  refine ⟨i, j, vs, m', hpad, hwle, hhle, hwmin, hhmin, hrun, ?_, ?_, ?_, ?_, ?_, ?_⟩
  · rw [hfl]; rfl
  · rw [hfl]; rfl
  · rw [hfl]; rfl
  · rw [hfl]; rfl
  · intro h0 h1
    obtain ⟨a, b⟩ := texCoord_unit sx0 i h0 (by omega)
    obtain ⟨c, d⟩ := texCoord_unit sx1 i (by omega) h1
    exact ⟨a, b, c, d⟩
  · intro h0 h1
    obtain ⟨a, b⟩ := texCoord_unit sy0 j h0 (by omega)
    obtain ⟨c, d⟩ := texCoord_unit sy1 j (by omega) h1
    exact ⟨a, b, c, d⟩

theorem paddedSize_16 : paddedSize 63 16 16 = .ok (16, 16) := by
  simp [paddedSize, doubleUntil, wrapInt, bind, Except.bind, pure, Except.pure]

theorem paddedSize_256_128 : paddedSize 63 256 128 = .ok (256, 128) := by
  simp [paddedSize, doubleUntil, wrapInt, bind, Except.bind, pure, Except.pure]

theorem QuadVertices_texcoords_witness :
    ∃ (vs : Window) (m' : Mem ℚ),
      paddedSize 63 256 128 = .ok (256, 128) ∧
      QuadVertices f32 63 256 128 0 0 100 50 GeoM.identity Mem.init = .ok (some vs, m') ∧
      (floats m'.heap (some vs))[2]? = some (f32.div (f32.ofInt 0) (f32.ofInt 256)) ∧
      (floats m'.heap (some vs))[3]? = some (f32.div (f32.ofInt 0) (f32.ofInt 128)) ∧
      (floats m'.heap (some vs))[20]? = some (f32.div (f32.ofInt 100) (f32.ofInt 256)) ∧
      (floats m'.heap (some vs))[21]? = some (f32.div (f32.ofInt 50) (f32.ofInt 128)) ∧
      (0 ≤ f32.div (f32.ofInt 0) (f32.ofInt 256) ∧ f32.div (f32.ofInt 0) (f32.ofInt 256) ≤ 1 ∧
        0 ≤ f32.div (f32.ofInt 100) (f32.ofInt 256) ∧
        f32.div (f32.ofInt 100) (f32.ofInt 256) ≤ 1) ∧
      (0 ≤ f32.div (f32.ofInt 0) (f32.ofInt 128) ∧ f32.div (f32.ofInt 0) (f32.ofInt 128) ≤ 1 ∧
        0 ≤ f32.div (f32.ofInt 50) (f32.ofInt 128) ∧
        f32.div (f32.ofInt 50) (f32.ofInt 128) ≤ 1) := by
  obtain ⟨i, j, vs, m', hpad, _, _, _, _, hrun, h2, h3, h20, h21, hu, hv⟩ :=
    QuadVertices_texcoords 63 256 128 0 0 100 50 GeoM.identity Mem.init (by decide) (by decide)
      (by decide) (by decide) (by decide) (by decide) (by decide) (Reachable.init [])
  rw [paddedSize_256_128] at hpad
  injection hpad with hpad
  injection hpad with hi hj
  rw [← hi] at h2 h20 hu
  rw [← hj] at h3 h21 hv
  exact ⟨vs, m', paddedSize_256_128, hrun, h2, h3, h20, h21, hu (by decide) (by decide),
    hv (by decide) (by decide)⟩

theorem f32_div_small (m : Int) (k : Nat) (q : ℚ) (hm : |m| < 2 ^ 24)
    (hq : q = (m : ℚ) * 2 ^ (-(k : ℤ))) :
    f32.div (f32.ofInt m) (f32.ofInt (2 ^ k)) = q := by
  rw [f32_ofInt_two_pow, f32_ofInt_exact m hm, f32_div_eq, hq, ← roundFloat32_exact m (-(k : ℤ)) hm,
    zpow_neg, zpow_natCast]
  rfl

/-- C9 (as stated) fails: the accepted request `QuadVertices(16, 16, -5, 0, 20, 10, identity)`
has padded width `w = 16` and yields `u0 = -5/16 < 0` and `u1 = 20/16 > 1`. -/
theorem QuadVertices_texcoords_outside_unit :
    ∃ (vs : Window) (m' : Mem ℚ),
      ((-5 : Int) < 20 ∧ (0 : Int) < 10 ∧ (0 : Int) < 20 ∧ (0 : Int) < 10) ∧
      paddedSize 63 16 16 = .ok (16, 16) ∧
      QuadVertices f32 63 16 16 (-5) 0 20 10 GeoM.identity Mem.init = .ok (some vs, m') ∧
      (floats m'.heap (some vs))[2]? = some ((-5 : ℚ) / 16) ∧
      (floats m'.heap (some vs))[20]? = some ((20 : ℚ) / 16) ∧
      ¬ ((0 : ℚ) ≤ -5 / 16) ∧ ¬ ((20 / 16 : ℚ) ≤ 1) := by
  obtain ⟨i, j, vs, m', hpad, _, _, _, _, _, _, hrun, hfl, _⟩ :=
    QuadVertices_ok f32 63 16 16 (-5) 0 20 10 GeoM.identity Mem.init (by decide) (by decide)
      (by decide) (by decide) (by decide) (by decide) (by decide) (backendOK_empty [])
  rw [paddedSize_16] at hpad
  injection hpad with hpad
  injection hpad with hi hj
  have hi4 : i = 4 := by
    have : (2 : Int) ^ 4 = 2 ^ i := by rw [← hi]; norm_num
    exact (Int.pow_right_injective (by norm_num) this).symm
  subst hi4
  have hu0 : f32.div (f32.ofInt (-5)) (f32.ofInt (2 ^ 4)) = -5 / 16 :=
    f32_div_small (-5) 4 _ (by norm_num) (by norm_num)
  have hu1 : f32.div (f32.ofInt 20) (f32.ofInt (2 ^ 4)) = 20 / 16 :=
    f32_div_small 20 4 _ (by norm_num) (by norm_num)
  refine ⟨vs, m', by decide, paddedSize_16, hrun, ?_, ?_, by norm_num, by norm_num⟩
  · rw [hfl]; exact congrArg some hu0
  · rw [hfl]; exact congrArg some hu1

end graphicsutil

namespace graphicsutil

/-! ## The scenario of the specification -/

theorem wrapInt_100 : wrapInt (100 - 0) = 100 := by norm_num [wrapInt]

theorem wrapInt_50 : wrapInt (50 - 0) = 50 := by norm_num [wrapInt]

/-- The scenario `QuadVertices(256, 128, 0, 0, 100, 50, identity)` from the initial state:
the padded size is `(256, 128)`, the texture coordinates are `0, 0, 100/256, 50/128`, and
the 24 floats returned are the four vertices `(0,0)`, `(100,0)`, `(0,50)`, `(100,50)`, each
followed by its own and its opposite texture coordinates. -/
theorem QuadVertices_scenario :
    ∃ (vs : Window) (m' : Mem ℚ),
      paddedSize 63 256 128 = .ok (256, 128) ∧
      QuadVertices f32 63 256 128 0 0 100 50 GeoM.identity Mem.init = .ok (some vs, m') ∧
      floats m'.heap (some vs) =
        [0, 0, 0, 0, 100 / 256, 50 / 128,
         100, 0, 100 / 256, 0, 0, 50 / 128,
         0, 50, 0, 50 / 128, 100 / 256, 0,
         100, 50, 100 / 256, 50 / 128, 0, 0] := by
  obtain ⟨i, j, vs, m', hpad, _, _, _, _, _, _, hrun, hfl, _⟩ :=
    QuadVertices_ok f32 63 256 128 0 0 100 50 GeoM.identity Mem.init (by decide) (by decide)
      (by decide) (by decide) (by decide) (by decide) (by decide) (backendOK_empty [])
  rw [paddedSize_256_128] at hpad
  injection hpad with hpad
  injection hpad with hi hj
  have hi8 : i = 8 := by
    have : (2 : Int) ^ 8 = 2 ^ i := by rw [← hi]; norm_num
    exact (Int.pow_right_injective (by norm_num) this).symm
  have hj7 : j = 7 := by
    have : (2 : Int) ^ 7 = 2 ^ j := by rw [← hj]; norm_num
    exact (Int.pow_right_injective (by norm_num) this).symm
  subst hi8 hj7
  have hu0 : f32.div (f32.ofInt 0) (f32.ofInt (2 ^ 8)) = 0 :=
    f32_div_small 0 8 _ (by norm_num) (by norm_num)
  have hv0 : f32.div (f32.ofInt 0) (f32.ofInt (2 ^ 7)) = 0 :=
    f32_div_small 0 7 _ (by norm_num) (by norm_num)
  have hu1 : f32.div (f32.ofInt 100) (f32.ofInt (2 ^ 8)) = 100 / 256 :=
    f32_div_small 100 8 _ (by norm_num) (by norm_num)
  have hv1 : f32.div (f32.ofInt 50) (f32.ofInt (2 ^ 7)) = 50 / 128 :=
    f32_div_small 50 7 _ (by norm_num) (by norm_num)
  have hx1 : f32.ofInt (wrapInt (100 - 0)) = 100 := by
    rw [wrapInt_100, f32_ofInt_exact 100 (by norm_num)]; norm_num
  have hy1 : f32.ofInt (wrapInt (50 - 0)) = 50 := by
    rw [wrapInt_50, f32_ofInt_exact 50 (by norm_num)]; norm_num
  refine ⟨vs, m', paddedSize_256_128, hrun, ?_⟩
  rw [hfl, hu0, hv0, hu1, hv1, hx1, hy1]
  rfl

end graphicsutil

namespace graphicsutil

/-! ## No panic -/

theorem doubleUntil_no_panic (fuel : Nat) :
    ∀ w bound : Int, doubleUntil fuel w bound ≠ .error .panic := by
  induction fuel with
  | zero => intro w bound h; cases h
  | succ fuel ih =>
    intro w bound
    unfold doubleUntil
    split
    · exact ih _ _
    · intro h; cases h

/-- From a reachable allocator state `QuadVertices` never panics, whatever the request: it
returns, or (only for a size above `2 ^ 62`) its padding loop does not end. -/
theorem QuadVertices_no_panic {F : Type} (ops : FloatOps F) (fuel : Nat)
    (width height sx0 sy0 sx1 sy1 : Int) (geom : GeoM F) (m : Mem F)
    (hreach : Reachable ops.zero m.heap m.theVerticesBackend) :
    QuadVertices ops fuel width height sx0 sy0 sx1 sy1 geom m ≠ .error .panic := by
  by_cases hdeg : sx0 ≥ sx1 ∨ sy0 ≥ sy1 ∨ sx1 ≤ 0 ∨ sy1 ≤ 0
  · rw [QuadVertices_degenerate ops fuel width height sx0 sy0 sx1 sy1 geom m hdeg]
    intro h; cases h
  · rw [QuadVertices_accepted ops fuel width height sx0 sy0 sx1 sy1 geom m (by omega) (by omega)
      (by omega) (by omega)]
    cases hpad : paddedSize fuel width height with
    | error e =>
      rw [Except.bind]
      intro h
      injection h with h
      subst h
      unfold paddedSize at hpad
      cases hw : doubleUntil fuel 1 width with
      | error e' =>
        rw [hw] at hpad
        have : e' = Fault.panic := by
          simp only [bind, Except.bind] at hpad
          injection hpad
        subst this
        exact doubleUntil_no_panic fuel 1 width hw
      | ok w =>
        rw [hw] at hpad
        cases hh : doubleUntil fuel 1 height with
        | error e' =>
          rw [hh] at hpad
          have : e' = Fault.panic := by
            simp only [bind, Except.bind] at hpad
            injection hpad
          subst this
          exact doubleUntil_no_panic fuel 1 height hh
        | ok h' =>
          rw [hh] at hpad
          simp only [bind, Except.bind, pure, Except.pure] at hpad
          cases hpad
    | ok wh =>
      rw [Except.bind]
      obtain ⟨vs, m', hrun, _⟩ := quadVerticesImpl_ok ops.zero
        (ops.div (ops.ofInt sx0) (ops.ofInt wh.1)) (ops.div (ops.ofInt sy0) (ops.ofInt wh.2))
        (ops.div (ops.ofInt sx1) (ops.ofInt wh.1)) (ops.div (ops.ofInt sy1) (ops.ofInt wh.2))
        ops.zero ops.zero (ops.ofInt (wrapInt (sx1 - sx0))) (ops.ofInt (wrapInt (sy1 - sy0)))
        geom m hreach.consistent
      rw [hrun]
      intro h; cases h

/-- `QuadVertices` leads from reachable allocator states to reachable ones, so that the
reachability assumed of the state at one call holds again at the next. -/
theorem QuadVertices_reachable {F : Type} (ops : FloatOps F) (fuel : Nat)
    (width height sx0 sy0 sx1 sy1 : Int) (geom : GeoM F) (m m' : Mem F) (vs : Slice)
    (hreach : Reachable ops.zero m.heap m.theVerticesBackend)
    (hrun : QuadVertices ops fuel width height sx0 sy0 sx1 sy1 geom m = .ok (vs, m')) :
    Reachable ops.zero m'.heap m'.theVerticesBackend := by
  by_cases hdeg : sx0 ≥ sx1 ∨ sy0 ≥ sy1 ∨ sx1 ≤ 0 ∨ sy1 ≤ 0
  · rw [QuadVertices_degenerate ops fuel width height sx0 sy0 sx1 sy1 geom m hdeg] at hrun
    injection hrun with hrun
    injection hrun with _ hm
    subst hm
    exact hreach
  · rw [QuadVertices_accepted ops fuel width height sx0 sy0 sx1 sy1 geom m (by omega) (by omega)
      (by omega) (by omega)] at hrun
    cases hpad : paddedSize fuel width height with
    | error e => rw [hpad] at hrun; cases hrun
    | ok wh =>
      rw [hpad, Except.bind] at hrun
      exact quadVerticesImpl_reachable ops.zero _ _ _ _ _ _ _ _ geom m m' vs hreach hrun

theorem QuadVertices_reachable_witness :
    ∃ (vs : Window) (m' : Mem ℚ),
      QuadVertices f32 63 256 128 0 0 100 50 GeoM.identity Mem.init = .ok (some vs, m') ∧
      Reachable f32.zero m'.heap m'.theVerticesBackend := by
  obtain ⟨_, _, vs, m', _, _, _, _, _, _, _, hrun, _, _⟩ :=
    QuadVertices_ok f32 63 256 128 0 0 100 50 GeoM.identity Mem.init (by decide) (by decide)
      (by decide) (by decide) (by decide) (by decide) (by decide) (backendOK_empty [])
  exact ⟨vs, m', hrun, QuadVertices_reachable f32 63 256 128 0 0 100 50 GeoM.identity
    Mem.init m' (some vs) (Reachable.init []) hrun⟩

theorem QuadVertices_no_panic_witness :
    QuadVertices f32 63 256 128 0 0 100 50 GeoM.identity Mem.init ≠ .error .panic :=
  QuadVertices_no_panic f32 63 256 128 0 0 100 50 GeoM.identity Mem.init (Reachable.init [])

end graphicsutil

namespace opengl

open graphicsutil (Fault Run)

/-! ## Claims about the context state cache -/

/-- C6 (as amended): `BlendFunc(m)` makes no driver call and leaves the context as it is when
`m` is the cached `lastCompositeMode`; when `m` differs from the cached mode and has the
factor pair `(s, d)` in the `operations` table, it returns normally having made exactly one
driver call, `blendFunc(s, d)`, and the context afterwards is the old one with
`lastCompositeMode = m`; when `m` differs from the cached mode and is not in the table, the
call ends in the panic of `operations` and no driver call is made (the list of calls is
empty; the context is left as the old one with `lastCompositeMode = m`, the assignment
preceding the panic). -/
theorem BlendFunc_cached {V M L : Type} [DecidableEq M] (operations : M → Option (Int × Int))
    (c : Context V M L) (m : M) :
    (m = c.lastCompositeMode → BlendFunc operations c m = ⟨c, [], none⟩) ∧
      (m ≠ c.lastCompositeMode → ∀ s d : Int, operations m = some (s, d) →
        BlendFunc operations c m =
            ⟨{ c with lastCompositeMode := m }, [GLCall.blendFunc s d], none⟩ ∧
          (BlendFunc operations c m).context.lastCompositeMode = m) ∧
      (m ≠ c.lastCompositeMode → operations m = none →
        BlendFunc operations c m = ⟨{ c with lastCompositeMode := m }, [], some .panic⟩ ∧
          (BlendFunc operations c m).calls = [] ∧
          (BlendFunc operations c m).fault = some .panic) := by
  have hsome : m ≠ c.lastCompositeMode → ∀ s d : Int, operations m = some (s, d) →
      BlendFunc operations c m =
        ⟨{ c with lastCompositeMode := m }, [GLCall.blendFunc s d], none⟩ := by
    intro h s d hop
    unfold BlendFunc
    rw [if_neg (fun h' => h h'.symm)]
    simp only [hop]
  have hnone : m ≠ c.lastCompositeMode → operations m = none →
      BlendFunc operations c m = ⟨{ c with lastCompositeMode := m }, [], some .panic⟩ := by
    intro h hop
    unfold BlendFunc
    rw [if_neg (fun h' => h h'.symm)]
    simp only [hop]
  refine ⟨?_, ?_, ?_⟩
  · intro h
    unfold BlendFunc
    rw [if_pos h.symm]
  · intro h s d hop
    refine ⟨hsome h s d hop, ?_⟩
    rw [hsome h s d hop]
  · intro h hop
    refine ⟨hnone h hop, ?_, ?_⟩ <;> rw [hnone h hop]

theorem BlendFunc_cached_witness :
    BlendFunc operationsSourceOver (Context.sample 0 0 0 0 0) 0 =
        ⟨Context.sample 0 0 0 0 0, [], none⟩ ∧
      BlendFunc operationsSourceOver (Context.sample 0 0 0 0 13) 0 =
        ⟨Context.sample 0 0 0 0 0, [GLCall.blendFunc 1 771], none⟩ ∧
      BlendFunc operationsSourceOver (Context.sample 0 0 0 0 0) 13 =
        ⟨Context.sample 0 0 0 0 13, [], some .panic⟩ :=
  ⟨(BlendFunc_cached operationsSourceOver (Context.sample 0 0 0 0 0) 0).1 rfl,
    ((BlendFunc_cached operationsSourceOver (Context.sample 0 0 0 0 13) 0).2.1 (by decide)
      1 771 rfl).1,
    ((BlendFunc_cached operationsSourceOver (Context.sample 0 0 0 0 0) 13).2.2 (by decide)
      rfl).1⟩

/-- C6 (as stated) fails for a mode without a factor pair: with a table that holds
source-over (mode 0) only and the cached mode being source-over, `BlendFunc(13)` is a
genuine change of mode, yet it makes no driver call at all and ends in the panic of
`operations`, not normally; the cache is left at mode 13, so that the same request made
again is taken for no change and returns without a driver call. -/
theorem BlendFunc_mode_not_in_table :
    (13 : Nat) ≠ (Context.sample 0 0 0 0 0).lastCompositeMode ∧
      operationsSourceOver 13 = none ∧
      BlendFunc operationsSourceOver (Context.sample 0 0 0 0 0) 13 =
        ⟨Context.sample 0 0 0 0 13, [], some .panic⟩ ∧
      (BlendFunc operationsSourceOver (Context.sample 0 0 0 0 0) 13).calls = [] ∧
      (¬ ∃ (s d : Int), (BlendFunc operationsSourceOver (Context.sample 0 0 0 0 0) 13).calls =
        [GLCall.blendFunc s d]) ∧
      BlendFunc operationsSourceOver
          (BlendFunc operationsSourceOver (Context.sample 0 0 0 0 0) 13).context 13 =
        ⟨Context.sample 0 0 0 0 13, [], none⟩ := by
  refine ⟨by decide, rfl, rfl, rfl, ?_, rfl⟩
  rintro ⟨s, d, h⟩
  have h' : (BlendFunc operationsSourceOver (Context.sample 0 0 0 0 0) 13).calls = [] := rfl
  rw [h'] at h
  cases h

/-- C7: deleting the live texture that is the cached `lastTexture` sets `lastTexture` to the
null sentinel; deleting the live framebuffer that is the cached `lastFramebuffer` sets
`lastFramebuffer` to the null sentinel and both cached viewport dimensions to 0; deleting a
handle that is not the cached one leaves the whole context, in particular the cached
texture, framebuffer and viewport, unchanged. -/
theorem Delete_invalidates_cache {V M L : Type} [DecidableEq V] (null : V) (gl : Driver V)
    (c : Context V M L) (t f : V) :
    (gl.isTexture t = true → c.lastTexture = t →
        (DeleteTexture null gl c t).1.lastTexture = null) ∧
      (gl.isFramebuffer f = true → c.lastFramebuffer = f →
        (DeleteFramebuffer null gl c f).1.lastFramebuffer = null ∧
        (DeleteFramebuffer null gl c f).1.lastViewportWidth = 0 ∧
        (DeleteFramebuffer null gl c f).1.lastViewportHeight = 0) ∧
      (c.lastTexture ≠ t → (DeleteTexture null gl c t).1 = c) ∧
      (c.lastFramebuffer ≠ f → (DeleteFramebuffer null gl c f).1 = c) := by
  refine ⟨?_, ?_, ?_, ?_⟩
  · intro hlive hc
    simp [DeleteTexture, hlive, hc]
  · intro hlive hc
    simp [DeleteFramebuffer, hlive, hc]
  · intro hne
    unfold DeleteTexture
    split
    · rfl
    · simp only [if_neg hne]
  · intro hne
    unfold DeleteFramebuffer
    split
    · rfl
    · simp only [if_neg hne]

theorem Delete_invalidates_cache_witness :
    (DeleteTexture 0 (Driver.ofLists [5] [6] [] []) (Context.sample 5 6 640 480 0) 5).1.lastTexture
        = 0 ∧
      (DeleteFramebuffer 0 (Driver.ofLists [5] [6] [] []) (Context.sample 5 6 640 480 0)
        6).1.lastFramebuffer = 0 ∧
      (DeleteFramebuffer 0 (Driver.ofLists [5] [6] [] []) (Context.sample 5 6 640 480 0)
        6).1.lastViewportWidth = 0 ∧
      (DeleteFramebuffer 0 (Driver.ofLists [5] [6] [] []) (Context.sample 5 6 640 480 0)
        6).1.lastViewportHeight = 0 ∧
      (DeleteTexture 0 (Driver.ofLists [5, 8] [6, 9] [] []) (Context.sample 5 6 640 480 0) 8).1
        = Context.sample 5 6 640 480 0 ∧
      (DeleteFramebuffer 0 (Driver.ofLists [5, 8] [6, 9] [] []) (Context.sample 5 6 640 480 0)
        9).1 = Context.sample 5 6 640 480 0 := by
  have hA := Delete_invalidates_cache 0 (Driver.ofLists [5] [6] [] [])
    (Context.sample 5 6 640 480 0) 5 6
  have hB := Delete_invalidates_cache 0 (Driver.ofLists [5, 8] [6, 9] [] [])
    (Context.sample 5 6 640 480 0) 8 9
  exact ⟨hA.1 rfl rfl, (hA.2.1 rfl rfl).1, (hA.2.1 rfl rfl).2.1, (hA.2.1 rfl rfl).2.2,
    hB.2.2.1 (by decide), hB.2.2.2 (by decide)⟩

/-- The three checked deletions: for a handle the driver does not recognise as a live object
of the kind, each of `DeleteTexture`, `DeleteFramebuffer` and `DeleteProgram` makes the
`is...` query only, no delete call, and leaves the context unchanged. -/
theorem Delete_not_live_noop {V M L : Type} [DecidableEq V] (null : V) (gl : Driver V)
    (c : Context V M L) (x : V) :
    (gl.isTexture x = false → DeleteTexture null gl c x = (c, [GLCall.isTexture x])) ∧
      (gl.isFramebuffer x = false →
        DeleteFramebuffer null gl c x = (c, [GLCall.isFramebuffer x])) ∧
      (gl.isProgram x = false → DeleteProgram gl c x = (c, [GLCall.isProgram x])) := by
  refine ⟨?_, ?_, ?_⟩ <;> intro h
  · simp [DeleteTexture, h]
  · simp [DeleteFramebuffer, h]
  · simp [DeleteProgram, h]

/-- C8 fails for `DeleteShader`: it never queries the driver, and for every handle, also one
the driver does not recognise as a live shader, it makes the driver call `deleteShader`. An
instance: no handle is live, and `DeleteShader(7)` still issues `deleteShader(7)`, whereas
`DeleteProgram(7)` only issues the query `isProgram(7)`. -/
theorem DeleteShader_deletes_unchecked :
    (∀ (V M L : Type) (gl : Driver V) (c : Context V M L) (s : V),
        DeleteShader gl c s = (c, [GLCall.deleteShader s])) ∧
      (Driver.ofLists [] [] [] []).isShader 7 = false ∧
      (DeleteShader (Driver.ofLists [] [] [] []) (Context.sample 0 0 0 0 0) 7).2
        = [GLCall.deleteShader 7] ∧
      ((DeleteShader (Driver.ofLists [] [] [] []) (Context.sample 0 0 0 0 0) 7).2.any
        GLCall.isDelete) = true ∧
      (DeleteProgram (Driver.ofLists [] [] [] []) (Context.sample 0 0 0 0 0) 7).2
        = [GLCall.isProgram 7] :=
  ⟨fun _ _ _ _ _ _ => rfl, rfl, rfl, rfl, rfl⟩

end opengl
